import Mathlib

/-!
# Verification of the N2G `cli_isis_data` plugin

Shallow embedding of `src/N2G/plugins/data/cli_isis_data.py` (class
`cli_isis_data`): the graph-builder (`_add_node`, `_add_link`,
`_process_lsp`, `_form_base_graph_dict`), the link packer (`_pack_links`),
the enrichment passes (`_lookup_rid`, `_lookup_ip_interfaces`), the CSV
lookup loader (`_load_ip_lookup_data`) and the drawing-sink adapter
(`_update_drawing`, `work`).

Modelling conventions:

* Python dicts are insertion-ordered association lists: `pyGet`, `aset`,
  `pySetdefault` mirror `d[k]`, `d[k] = v` and `d.setdefault(k, v)`.
* A link-dict string field that may be missing from the dict (the four
  correlation keys and `trgt_label`) is a `PyOpt`: `absent` is "key not in
  dict" (so `d[k]` / `d.pop(k)` raise `KeyError`), `pynone` is "key maps to
  `None`", `val s` is "key maps to string `s`".  Python truthiness of such a
  value is `truthy` (`None` and `""` are falsy).
* Raising an exception is modelled by returning `none` (`Option`).
* `json.dumps(..., sort_keys=True)` / `json.loads` on link descriptions is
  modelled by keeping the parsed top-level object (a `Desc`, an association
  list of string keys to opaquely serialized values) and canonicalising it
  by key sort (`pyDumps`); `json.loads` is then the identity.  The
  serialization of parsed LSP payloads (`dumpsLsp`, `dumpsLspLink`) is an
  explicit deterministic encoding standing in for the JSON text, which the
  claims never inspect.
* Python `sorted` on strings compares by code point; `pySorted` is an
  insertion sort over that order (kernel-reducible, unlike `String.le`'s
  `UInt32` instances).
* `fnmatch.fnmatchcase` is modelled by `globMatch`, a direct embedding of
  the glob language (`*`, `?`, `[...]`, `[!...]`, ranges, literal `[` when
  the class is unterminated), with a fuel argument for structural
  termination (`pattern length + string length` steps always suffice).
-/

namespace N2GIsis

/-- State of a possibly-missing string entry of a Python link dict. -/
inductive PyOpt where
  | absent
  | pynone
  | val (s : String)
  deriving DecidableEq, Repr

/-- Python truthiness of a present dict value (`None` and `""` are falsy). -/
def truthy : PyOpt → Bool
  | PyOpt.absent => false
  | PyOpt.pynone => false
  | PyOpt.val s => s ≠ ""

/-- `d[k]` / `d.pop(k)` on a possibly-missing entry: `KeyError` on `absent`. -/
def pyKey : PyOpt → Option PyOpt
  | PyOpt.absent => none
  | PyOpt.pynone => some PyOpt.pynone
  | PyOpt.val s => some (PyOpt.val s)

theorem pyKey_of_ne_absent {x : PyOpt} (h : x ≠ PyOpt.absent) : pyKey x = some x := by
  cases x <;> simp [pyKey] at h ⊢

/-- Dict lookup `d.get(k)` over an insertion-ordered association list. -/
def pyGet {κ α : Type} [DecidableEq κ] (d : List (κ × α)) (k : κ) : Option α :=
  match d with
  | [] => none
  | (k', v) :: t => if k' = k then some v else pyGet t k

/-- Dict assignment `d[k] = v`: replace in place, else append (insertion order). -/
def aset {κ α : Type} [DecidableEq κ] : List (κ × α) → κ → α → List (κ × α)
  | [], k, v => [(k, v)]
  | (k', v') :: t, k, v => if k' = k then (k, v) :: t else (k', v') :: aset t k v

/-- `d.setdefault(k, v)`. -/
def pySetdefault {κ α : Type} [DecidableEq κ] (d : List (κ × α)) (k : κ) (v : α) :
    List (κ × α) :=
  if (pyGet d k).isSome then d else d ++ [(k, v)]

/-- A Python dict of strings (lookup records, parsed description objects). -/
abbrev PyDict := List (String × String)

/-- Parsed top-level JSON object of a link description. -/
abbrev Desc := PyDict

/-- Code-point lexicographic comparison of char lists (Python string `<=`). -/
def strLeList : List Char → List Char → Bool
  | [], _ => true
  | _ :: _, [] => false
  | a :: as, b :: bs =>
    if a.toNat < b.toNat then true
    else if b.toNat < a.toNat then false
    else strLeList as bs

/-- Python string comparison used by `sorted`. -/
def pyStrLe (a b : String) : Bool := strLeList a.data b.data

/-- Python `sorted` on a list of strings (code-point lexicographic order). -/
def pySorted (l : List String) : List String :=
  List.insertionSort (fun a b => pyStrLe a b = true) l

/-- `json.dumps(d, sort_keys=True)` on a parsed description object,
modelled as canonicalisation by key sort. -/
def pyDumps (d : Desc) : Desc :=
  List.insertionSort (fun p q => pyStrLe p.1 q.1 = true) d

/-- `{**a, **b}`: right-biased key union of two parsed JSON objects. -/
def pyDictMerge (a b : Desc) : Desc :=
  a.filter (fun kv => (pyGet b kv.1).isNone) ++ b

/-- Python `str.split(c)` for a single-character separator (keeps empty parts). -/
def splitChar (c : Char) : List Char → List (List Char)
  | [] => [[]]
  | x :: xs =>
    if x = c then [] :: splitChar c xs
    else
      match splitChar c xs with
      | [] => [[x]]
      | y :: ys => (x :: y) :: ys

/-- Python `s.split(c)` on strings. -/
def pySplit (s : String) (c : Char) : List String :=
  (splitChar c s.data).map (fun l => String.mk l)

/-- Python tuple unpacking `a, b = parts`: `ValueError` unless exactly two. -/
def unpackTwo (l : List String) : Option (String × String) :=
  match l with
  | [a, b] => some (a, b)
  | _ => none

/-- Python `s.count(c)` for a single character. -/
def pyCountChar (s : String) (c : Char) : Nat := s.data.count c

/-! ## `fnmatch.fnmatchcase` (stdlib dependency of `_process_lsp`) -/

/-- Scan for the closing `]` of a glob character class; `none` when
unterminated (Python then treats the `[` as a literal). -/
def scanClose : List Char → Option (List Char × List Char)
  | [] => none
  | c :: t =>
    if c = ']' then some ([], t)
    else (scanClose t).map (fun p => (c :: p.1, p.2))

/-- Parse the part of a glob pattern after `[`: negation flag, class body
(a `]` in first body position is a literal member) and the rest. -/
def parseClassAfterBracket (cs : List Char) : Option (Bool × List Char × List Char) :=
  match cs with
  | '!' :: ']' :: t => (scanClose t).map (fun p => (true, ']' :: p.1, p.2))
  | '!' :: t => (scanClose t).map (fun p => (true, p.1, p.2))
  | ']' :: t => (scanClose t).map (fun p => (false, ']' :: p.1, p.2))
  | t => (scanClose t).map (fun p => (false, p.1, p.2))

/-- Class body as ranges: `a-z` is a range, a lone char is a
degenerate range, `-` at either end is literal. -/
def classItems : List Char → List (Char × Char)
  | a :: '-' :: b :: rest => (a, b) :: classItems rest
  | a :: rest => (a, a) :: classItems rest
  | [] => []

/-- Membership of a char in a (possibly negated) class body. -/
def classMemb (neg : Bool) (body : List Char) (c : Char) : Bool :=
  let m := (classItems body).any (fun p => p.1.toNat ≤ c.toNat && c.toNat ≤ p.2.toNat)
  if neg then !m else m

/-- Glob matching (`*`, `?`, classes, literals); full-string anchored as in
`fnmatch.translate`.  `fuel ≥ pattern length + string length` always
suffices, each step consumes from one of the two lists. -/
def globMatch (fuel : Nat) (p s : List Char) : Bool :=
  match fuel with
  | 0 => false
  | fuel + 1 =>
    match p, s with
    | [], [] => true
    | [], _ :: _ => false
    | '*' :: ps, s =>
      globMatch fuel ps s ||
        (match s with
         | [] => false
         | _ :: s' => globMatch fuel ('*' :: ps) s')
    | '?' :: _, [] => false
    | '?' :: ps, _ :: s' => globMatch fuel ps s'
    | '[' :: ps, s =>
      match parseClassAfterBracket ps with
      | none =>
        match s with
        | [] => false
        | c :: s' => c = '[' && globMatch fuel ps s'
      | some (neg, body, rest) =>
        match s with
        | [] => false
        | c :: s' => classMemb neg body c && globMatch fuel rest s'
    | _ :: _, [] => false
    | pc :: ps, c :: s' => pc = c && globMatch fuel ps s'

/-- `fnmatch.fnmatchcase(name, pattern)`: case-sensitive glob match. -/
def fnmatchcase (name pattern : String) : Bool :=
  globMatch (pattern.data.length + name.data.length + 1) pattern.data name.data

/-! ## Data model -/

/-- One node dict of `nodes_dict`; `none` on an optional field is
"key not in dict".  `description` is the opaque `json.dumps` text of the
first raw record attached to this node. -/
structure Node where
  id : String
  label : Option String := none
  top_label : Option String := none
  bottom_label : Option String := none
  description : Option String := none
  deriving DecidableEq, Repr

/-- One link dict of a `links_dict` group.  `source`, `target`, `label` and
`src_label` are present on every link the plugin constructs. -/
structure Link where
  source : String
  target : String
  label : String
  src_label : String
  trgt_label : PyOpt := PyOpt.absent
  local_intf_id : PyOpt := PyOpt.absent
  peer_intf_id : PyOpt := PyOpt.absent
  local_ip : PyOpt := PyOpt.absent
  peer_ip : PyOpt := PyOpt.absent
  description : Option Desc := none
  deriving DecidableEq, Repr

/-- Constructor configuration of `cli_isis_data` (after lookup-data load). -/
structure Config where
  add_connected : Bool := false
  ptp_filter : List String := []
  add_data : Bool := true
  ip_lookup_data : List (String × PyDict) := []
  deriving DecidableEq, Repr

/-- Mutable instance state: `self.nodes_dict`, `self.links_dict`,
`self.graph_dict` (its two lists). -/
structure IsisState where
  nodes_dict : List (String × Node) := []
  links_dict : List (List String × List Link) := []
  graph_nodes : List Node := []
  graph_links : List Link := []
  deriving DecidableEq, Repr

/-- Fresh instance state as set up in `__init__`. -/
def initialState : IsisState := {}

/-- `_make_hash_tuple`: the link group key
`tuple(sorted([data["source"], data["target"], data.get("label", "")]))`;
every link the plugin builds carries a `label`, so the `""` default of
`data.get` never fires. -/
def makeHashTuple (l : Link) : List String :=
  pySorted [l.source, l.target, l.label]

/-! ## Graph Builder -/

/-- The `for key, value in node.items(): if not key in stored_node:  ...`
loop of `_add_node`: fill only the attributes absent on the stored node
(`id` is present on both sides and therefore never copied). -/
def fillAbsentNode (stored node : Node) : Node :=
  { id := stored.id
    label := stored.label <|> node.label
    top_label := stored.top_label <|> node.top_label
    bottom_label := stored.bottom_label <|> node.bottom_label
    description := stored.description <|> node.description }

/-- `_add_node(node, node_data)`.  `node_data` is the `json.dumps` text of
the raw record (`none` models the empty, falsy, default dict). -/
def addNode (cfg : Config) (st : IsisState) (node : Node) (node_data : Option String) :
    IsisState :=
  match pyGet st.nodes_dict node.id with
  | none =>
    let node :=
      if node_data.isSome && cfg.add_data then
        { node with description := node_data }
      else node
    { st with nodes_dict := st.nodes_dict ++ [(node.id, node)] }
  | some stored =>
    let stored := fillAbsentNode stored node
    let stored :=
      if stored.description.isNone && (node_data.isSome && cfg.add_data) then
        { stored with description := node_data }
      else stored
    { st with nodes_dict := aset st.nodes_dict node.id stored }

/-- `_add_link(link, link_data)`, also reporting the group key when the link
was appended (used by `_pack_links`, which afterwards mutates the very
object it just stored).  `link_data = []` models the empty default dict. -/
def addLinkMark (cfg : Config) (st : IsisState) (link : Link) (link_data : Desc) :
    IsisState × Option (List String) :=
  let h := makeHashTuple link
  let d := pySetdefault st.links_dict h []
  let group := (pyGet d h).getD []
  if link ∈ group then ({ st with links_dict := d }, none)
  else
    let link :=
      if (!link_data.isEmpty) && cfg.add_data then
        { link with description := some (pyDumps link_data) }
      else link
    ({ st with links_dict := aset d h (group ++ [link]) }, some h)

/-- `_add_link(link, link_data)`. -/
def addLink (cfg : Config) (st : IsisState) (link : Link) (link_data : Desc) : IsisState :=
  (addLinkMark cfg st link link_data).1

/-! ### Parsed-record shapes (output contract of the external TTP parser) -/

/-- One adjacency entry of a parsed LSP; `none` is "key absent". -/
structure LspLink where
  peer_name : String
  metric : String
  local_ip : Option String := none
  peer_ip : Option String := none
  local_intf_id : Option String := none
  peer_intf_id : Option String := none
  deriving DecidableEq, Repr

/-- One connected-subnet entry of a parsed LSP. -/
structure LspNetwork where
  network : String
  metric : String
  deriving DecidableEq, Repr

/-- One parsed LSP record. -/
structure Lsp where
  hostname : String
  rid : String
  level : String
  links : List LspLink := []
  networks : List LspNetwork := []
  deriving DecidableEq, Repr

/-- One ISIS process of a parsed device record. -/
structure IsisProcData where
  LSP : List Lsp := []
  deriving DecidableEq, Repr

/-- One parsed device record. -/
structure Device where
  isis_processes : List (String × IsisProcData) := []
  deriving DecidableEq, Repr

/-- `str(x)` of an optional string as used inside `"{}".format` (Python
prints `None`). -/
def pyFormatOpt : Option String → String
  | none => "None"
  | some s => s

/-- Opaque stand-in for `json.dumps({"isis_pid": isis_pid, **link}, ...)`,
a deterministic serialization of one adjacency payload. -/
def dumpsLspLink (isis_pid : String) (lk : LspLink) : String :=
  "adj(" ++ isis_pid ++ ";" ++ lk.peer_name ++ ";" ++ lk.metric ++ ";" ++
    pyFormatOpt lk.local_ip ++ ";" ++ pyFormatOpt lk.peer_ip ++ ";" ++
    pyFormatOpt lk.local_intf_id ++ ";" ++ pyFormatOpt lk.peer_intf_id ++ ")"

/-- Opaque stand-in for `json.dumps(lsp, ...)`, a deterministic
serialization of one LSP payload. -/
def dumpsLsp (l : Lsp) : String :=
  "lsp(" ++ l.hostname ++ ";" ++ l.rid ++ ";" ++ l.level ++ ";" ++
    String.intercalate "," (l.links.map (dumpsLspLink "")) ++ ";" ++
    String.intercalate "," (l.networks.map (fun n => n.network ++ "/" ++ n.metric)) ++ ")"

/-- The link dict built for one adjacency in `_process_lsp`. -/
def mkRawLink (lsp : Lsp) (isis_pid : String) (lk : LspLink) : Link :=
  { source := lsp.hostname
    src_label := (lk.local_ip.getD (pyFormatOpt lk.local_intf_id)) ++ ":" ++ lk.metric
    label := isis_pid ++ ":" ++ (lsp.level.replace "Level-" "L")
    target := lk.peer_name
    local_intf_id := (lk.local_intf_id.map PyOpt.val).getD PyOpt.pynone
    peer_intf_id := (lk.peer_intf_id.map PyOpt.val).getD PyOpt.pynone
    peer_ip := (lk.peer_ip.map PyOpt.val).getD PyOpt.pynone
    local_ip := (lk.local_ip.map PyOpt.val).getD PyOpt.pynone }

/-- The ptp-filter guard of `_process_lsp`:
`any([fnmatchcase(link.get("local_ip", ""), p) for p in self.ptp_filter])`. -/
def ptpFiltered (cfg : Config) (lk : LspLink) : Bool :=
  cfg.ptp_filter.any (fun p => fnmatchcase (lk.local_ip.getD "") p)

/-- The node dict built for a subnet entry (no `top_label` key). -/
def mkSubnetNode (n : LspNetwork) : Node :=
  { id := n.network, label := some n.network, bottom_label := some "Subnet" }

/-- The link dict built for a subnet entry (no correlation keys). -/
def mkSubnetLink (lsp : Lsp) (n : LspNetwork) : Link :=
  { source := lsp.hostname
    src_label := "M:" ++ n.metric
    label := lsp.level
    target := n.network }

/-- The node dict built for the router reporting an LSP. -/
def mkMainNode (lsp : Lsp) : Node :=
  { id := lsp.hostname
    label := some lsp.hostname
    bottom_label := some "Node"
    top_label := some lsp.rid }

/-- `_process_lsp(lsp, isis_pid, device)` (the `device` argument is unused
by the source). -/
def processLsp (cfg : Config) (st : IsisState) (lsp : Lsp) (isis_pid : String) :
    IsisState :=
  let st := addNode cfg st (mkMainNode lsp) (some (dumpsLsp lsp))
  let st := lsp.links.foldl
    (fun st lk =>
      if ptpFiltered cfg lk then st
      else addLink cfg st (mkRawLink lsp isis_pid lk)
        [(lsp.hostname, dumpsLspLink isis_pid lk)])
    st
  if cfg.add_connected then
    lsp.networks.foldl
      (fun st n => addLink cfg (addNode cfg st (mkSubnetNode n) none) (mkSubnetLink lsp n) [])
      st
  else st

/-- `_form_base_graph_dict`. -/
def formBaseGraphDict (cfg : Config) (st : IsisState) (devices : List Device) : IsisState :=
  devices.foldl
    (fun st dev =>
      dev.isis_processes.foldl
        (fun st p => p.2.LSP.foldl (fun st lsp => processLsp cfg st lsp p.1) st)
        st)
    st

/-! ## Link Packer (`_pack_links`)

The `while links:` loop of `_pack_links` pops the candidate from the *end*
of the pool (`links.pop()`), scans the remaining pool front-to-first-match,
and re-inserts processed candidates through `_add_link`.  The loop is
embedded with a fuel argument for structural recursion; every iteration
removes at least one pool entry, so `pool.length` fuel always suffices
(the caller passes exactly that).  A Python exception (`KeyError` from
`link.pop`/`link_2[...]`, `ValueError` from label unpacking) is `none`. -/

/-- Scan `for link_2 in links:` for an interface-ID partner
(`link_2["peer_intf_id"] == local_intf_id and
link_2["local_intf_id"] == peer_intf_id`); `none` is a `KeyError`,
`some none` is "no partner". -/
def scanIntf : List Link → PyOpt → PyOpt → Option (Option Link)
  | [], _, _ => some none
  | l2 :: rest, lid, pid =>
    match pyKey l2.peer_intf_id with
    | none => none
    | some p =>
      if p = lid then
        match pyKey l2.local_intf_id with
        | none => none
        | some q => if q = pid then some (some l2) else scanIntf rest lid pid
      else scanIntf rest lid pid

/-- Scan for an IP partner (`link_2["peer_ip"] == local_ip and
link_2["local_ip"] == peer_ip`). -/
def scanIp : List Link → PyOpt → PyOpt → Option (Option Link)
  | [], _, _ => some none
  | l2 :: rest, lip, pip =>
    match pyKey l2.peer_ip with
    | none => none
    | some p =>
      if p = lip then
        match pyKey l2.local_ip with
        | none => none
        | some q => if q = pip then some (some l2) else scanIp rest lip pip
      else scanIp rest lip pip

/-- Lines 399-407 / 426-434: split both labels on `":"` (a `ValueError`
when either does not have exactly two parts) and format the merged label. -/
def mergeLabels (lab1 lab2 : String) : Option String :=
  match unpackTwo (pySplit lab1 ':'), unpackTwo (pySplit lab2 ':') with
  | some (pid1, level1), some (pid2, _) =>
    some ((if pid1 = pid2 then pid1 else pid1 ++ "-" ++ pid2) ++ ":" ++ level1)
  | _, _ => none

/-- Replace the label of the last link of group `h` (the object `_add_link`
just appended, which the source then mutates in place). -/
def setLabelLast (d : List (List String × List Link)) (h : List String) (lab : String) :
    List (List String × List Link) :=
  match pyGet d h with
  | none => d
  | some ls =>
    match ls.getLast? with
    | none => d
    | some e => aset d h (ls.dropLast ++ [{ e with label := lab }])

/-- The candidate with its four correlation keys popped. -/
def stripCorr (l : Link) : Link :=
  { l with local_intf_id := PyOpt.absent, peer_intf_id := PyOpt.absent,
           peer_ip := PyOpt.absent, local_ip := PyOpt.absent }

/-- The partner-found body: set `trgt_label` from the partner, `_add_link`
the candidate with the merged descriptions, then mutate the (possibly just
stored) candidate's label when the two labels differ. -/
def packPair (cfg : Config) (st : IsisState) (cand l2 : Link) : Option IsisState :=
  let cand := { cand with trgt_label := PyOpt.val l2.src_label }
  match cand.description, l2.description with
  | some d1, some d2 =>
    let res := addLinkMark cfg st cand (pyDictMerge d1 d2)
    if cand.label = l2.label then some res.1
    else
      match mergeLabels cand.label l2.label with
      | none => none
      | some newLab =>
        match res.2 with
        | none => some res.1
        | some h => some { res.1 with links_dict := setLabelLast res.1.links_dict h newLab }
  | _, _ => none

/-- Last element of a non-empty pool (`links.pop()` reads the end). -/
def lastOf (p : Link) : List Link → Link
  | [] => p
  | q :: qs => lastOf q qs

/-- The pool without its last element (what `links.pop()` leaves). -/
def initOf (p : Link) : List Link → List Link
  | [] => []
  | q :: qs => p :: initOf q qs

/-- The `while links:` loop of `_pack_links` for one group. -/
def packGroupLoop (cfg : Config) : Nat → IsisState → List Link → Option IsisState
  | _, st, [] => some st
  | 0, _, _ :: _ => none
  | fuel + 1, st, p :: ps =>
    let link := lastOf p ps
    let rest := initOf p ps
    match pyKey link.local_intf_id, pyKey link.peer_intf_id,
          pyKey link.peer_ip, pyKey link.local_ip with
    | some lid, some pid, some pip, some lip =>
      let cand := stripCorr link
      if truthy lid && truthy pid then
        match scanIntf rest lid pid with
        | none => none
        | some none => packGroupLoop cfg fuel (addLink cfg st cand []) rest
        | some (some l2) =>
          match packPair cfg st cand l2 with
          | none => none
          | some st' => packGroupLoop cfg fuel st' (rest.erase l2)
      else if truthy lip && truthy pip then
        match scanIp rest lip pip with
        | none => none
        | some none => packGroupLoop cfg fuel (addLink cfg st cand []) rest
        | some (some l2) =>
          match packPair cfg st cand l2 with
          | none => none
          | some st' => packGroupLoop cfg fuel st' (rest.erase l2)
      else packGroupLoop cfg fuel (addLink cfg st cand []) rest
    | _, _, _, _ => none

/-- The `for hash in self.links_dict.keys():` loop.  Python raises
`RuntimeError` when the dict gains a key while being iterated, checked
after each group (no key is ever removed). -/
def packLinksAux (cfg : Config) : List (List String) → IsisState → Option IsisState
  | [], st => some st
  | h :: hs, st =>
    match pyGet st.links_dict h with
    | none => none
    | some links =>
      if links.length ≤ 1 then packLinksAux cfg hs st
      else
        let st0 := { st with links_dict := aset st.links_dict h [] }
        match packGroupLoop cfg links.length st0 links with
        | none => none
        | some st' =>
          if st'.links_dict.map Prod.fst = st0.links_dict.map Prod.fst then
            packLinksAux cfg hs st'
          else none

/-- `_pack_links`. -/
def packLinks (cfg : Config) (st : IsisState) : Option IsisState :=
  packLinksAux cfg (st.links_dict.map Prod.fst) st

/-! ## Enrichment passes -/

/-- `_lookup_rid`: rewrite node display labels from the lookup table
(`node["top_label"]` raises `KeyError` when the key is absent). -/
def lookupRid (cfg : Config) (st : IsisState) : Option IsisState := do
  let nd ← st.nodes_dict.mapM (fun p => do
    match p.2.top_label with
    | none => none
    | some node_ip =>
      match pyGet cfg.ip_lookup_data node_ip with
      | none => pure p
      | some r =>
        let n := p.2
        let n := match pyGet r "top_label" with
          | some v => { n with top_label := some v }
          | none => n
        let n := match pyGet r "bottom_label" with
          | some v => { n with bottom_label := some v }
          | none => n
        let n := match pyGet r "label" with
          | some v => { n with label := some v }
          | none => n
        pure (p.1, n))
  pure { st with nodes_dict := nd }

/-- The `trgt_label` block of `_lookup_ip_interfaces` (its trailing
`continue` is the last statement of the loop body, hence harmless). -/
def trgtBlockIntf (tbl : List (String × PyDict)) (link : Link) : Option Link :=
  match link.trgt_label with
  | PyOpt.val s =>
    if s ≠ "" then
      match unpackTwo (pySplit s ':') with
      | none => none
      | some (ip, metric) =>
        if pyCountChar ip '.' ≠ 3 then some link
        else
          match pyGet tbl ip with
          | none => some link
          | some r =>
            match pyGet r "interface" with
            | some intf =>
              if intf ≠ "" then
                some { link with trgt_label := PyOpt.val (intf ++ ":" ++ ip ++ ":" ++ metric) }
              else some link
            | none => some link
    else some link
  | _ => some link

/-- One iteration of the `for link in links:` loop of
`_lookup_ip_interfaces`.  NOTE the `continue` in the `src_label` block when
the candidate IP does not look IPv4: it skips the whole link, so the
`trgt_label` block is never reached for that link. -/
def processLinkIntf (tbl : List (String × PyDict)) (link : Link) : Option Link :=
  if link.src_label ≠ "" then
    match unpackTwo (pySplit link.src_label ':') with
    | none => none
    | some (ip, metric) =>
      if pyCountChar ip '.' ≠ 3 then some link
      else
        let link :=
          match pyGet tbl ip with
          | none => link
          | some r =>
            match pyGet r "interface" with
            | some intf =>
              if intf ≠ "" then
                { link with src_label := intf ++ ":" ++ ip ++ ":" ++ metric }
              else link
            | none => link
        trgtBlockIntf tbl link
  else trgtBlockIntf tbl link

/-- `_lookup_ip_interfaces`. -/
def lookupIpInterfaces (cfg : Config) (st : IsisState) : Option IsisState := do
  let ld ← st.links_dict.mapM (fun p => do
    let ls ← p.2.mapM (processLinkIntf cfg.ip_lookup_data)
    pure (p.1, ls))
  pure { st with links_dict := ld }

/-! ## CSV lookup loader (`_load_ip_lookup_data`, string-path branch) -/

/-- The opened CSV file, already tokenised into a header line and data
rows (text-level CSV quoting is below the abstraction of the claims). -/
structure CsvFile where
  header : List String
  rows : List (List String)
  deriving DecidableEq, Repr

/-- One `csv.DictReader` row dict: header fields zipped with the row,
short rows padded with `None` (`restval`), extra fields dropped into the
ignored `restkey`. -/
def dictReaderRow : List String → List String → List (String × Option String)
  | [], _ => []
  | h :: hs, [] => (h, none) :: dictReaderRow hs []
  | h :: hs, v :: vs => (h, some v) :: dictReaderRow hs vs

/-- Dict-comprehension insert (`{r["ip"]: r for r in reader ...}`): first
occurrence keeps its position, a later equal key overwrites the value. -/
def dcInsert (d : List (Option String × List (String × Option String)))
    (k : Option String) (v : List (String × Option String)) :
    List (Option String × List (String × Option String)) :=
  if (pyGet d k).isSome then aset d k v else d ++ [(k, v)]

/-- `_load_ip_lookup_data` for a string `ip_lookup_data`: `none` for the
file argument models an unreadable path (`open` raises `OSError`,
propagated).  `csv.DictReader` skips blank rows; the comprehension guard
`if "ip" in r` skips a row exactly when the header has no `ip` column. -/
def loadIpLookupData (file : Option CsvFile) :
    Except String (List (Option String × List (String × Option String))) :=
  match file with
  | none => Except.error "OSError"
  | some f =>
    let rdicts := (f.rows.filter (fun r => !r.isEmpty)).map (dictReaderRow f.header)
    Except.ok
      ((rdicts.filter (fun r => (pyGet r "ip").isSome)).foldl
        (fun acc r =>
          match pyGet r "ip" with
          | some k => dcInsert acc k r
          | none => acc)
        [])

/-! ## Drawing sink and `work` -/

/-- `_update_drawing`: `graph_dict["nodes"]` is rebuilt, but
`graph_dict["links"]` is only ever *extended*. -/
def updateDrawing (st : IsisState) : IsisState :=
  { st with
    graph_nodes := st.nodes_dict.map Prod.snd
    graph_links := st.graph_links ++ (st.links_dict.map Prod.snd).flatten }

/-- `work(data)`.  Modelled from the spec: `_parse` delegates to the
external TTP parser and template store, which are outside this repository;
the model therefore receives the already-parsed device records
(`self.parsed_data` is replaced wholesale on every call).  The remaining
pipeline is embedded from the source. -/
def work (cfg : Config) (st : IsisState) (parsed : List Device) : Option IsisState :=
  let st1 := formBaseGraphDict cfg st parsed
  match packLinks cfg st1 with
  | none => none
  | some st2 =>
    let st3opt :=
      if cfg.ip_lookup_data = [] then some st2
      else
        match lookupRid cfg st2 with
        | none => none
        | some stR => lookupIpInterfaces cfg stR
    match st3opt with
    | none => none
    | some st3 => some (updateDrawing st3)

/-! ## Helper lemmas: dict primitives -/

theorem pyGet_aset_same {κ α : Type} [DecidableEq κ] (d : List (κ × α)) (k : κ) (v : α) :
    pyGet (aset d k v) k = some v := by
  induction d with
  | nil => simp [aset, pyGet]
  | cons p t ih =>
    by_cases h : p.1 = k
    · simp [aset, h, pyGet]
    · simp [aset, h, pyGet, ih]

theorem pyGet_aset_ne {κ α : Type} [DecidableEq κ] (d : List (κ × α)) (k k' : κ) (v : α)
    (h : k' ≠ k) : pyGet (aset d k v) k' = pyGet d k' := by
  induction d with
  | nil => simp [aset, pyGet, Ne.symm h]
  | cons p t ih =>
    by_cases hp : p.1 = k
    · have h2 : ¬ p.1 = k' := by rw [hp]; exact Ne.symm h
      simp only [aset, if_pos hp, pyGet]
      rw [if_neg (Ne.symm h), if_neg h2]
    · simp only [aset, if_neg hp, pyGet]
      by_cases hq : p.1 = k'
      · rw [if_pos hq, if_pos hq]
      · rw [if_neg hq, if_neg hq, ih]

theorem aset_map_fst {κ α : Type} [DecidableEq κ] (d : List (κ × α)) (k : κ) (v : α)
    (h : (pyGet d k).isSome) : (aset d k v).map Prod.fst = d.map Prod.fst := by
  induction d with
  | nil => simp [pyGet] at h
  | cons p t ih =>
    by_cases hp : p.1 = k
    · simp [aset, hp]
    · simp only [pyGet, if_neg hp] at h
      simp [aset, hp, ih h]

theorem pyGet_isSome_of_mem_fst {κ α : Type} [DecidableEq κ] (d : List (κ × α)) (k : κ)
    (h : k ∈ d.map Prod.fst) : (pyGet d k).isSome := by
  induction d with
  | nil => simp at h
  | cons p t ih =>
    by_cases hp : p.1 = k
    · simp [pyGet, hp]
    · simp only [List.map_cons, List.mem_cons] at h
      rcases h with h | h
      · exact absurd h.symm hp
      · simp [pyGet, hp, ih h]

theorem mem_fst_of_pyGet_isSome {κ α : Type} [DecidableEq κ] (d : List (κ × α)) (k : κ)
    (h : (pyGet d k).isSome) : k ∈ d.map Prod.fst := by
  induction d with
  | nil => simp [pyGet] at h
  | cons p t ih =>
    by_cases hp : p.1 = k
    · simp [hp]
    · simp only [pyGet, if_neg hp] at h
      simp [ih h]

theorem pySetdefault_of_isSome {κ α : Type} [DecidableEq κ] (d : List (κ × α)) (k : κ)
    (v : α) (h : (pyGet d k).isSome) : pySetdefault d k v = d := by
  simp [pySetdefault, h]

/-! ## Helper lemmas: the code-point string order used by `pySorted` -/

theorem charToNat_inj {a b : Char} (h : a.toNat = b.toNat) : a = b := by
  apply Char.eq_of_val_eq
  exact UInt32.ext h

theorem strLeList_total : ∀ a b : List Char, strLeList a b = true ∨ strLeList b a = true
  | [], _ => Or.inl rfl
  | _ :: _, [] => Or.inr rfl
  | a :: as, b :: bs => by
    simp only [strLeList]
    rcases Nat.lt_trichotomy a.toNat b.toNat with h | h | h
    · left; simp [h]
    · have h1 : ¬ a.toNat < b.toNat := by omega
      have h2 : ¬ b.toNat < a.toNat := by omega
      simp only [if_neg h1, if_neg h2]
      exact strLeList_total as bs
    · right; simp [h, Nat.lt_asymm h]

theorem strLeList_trans : ∀ a b c : List Char,
    strLeList a b = true → strLeList b c = true → strLeList a c = true
  | [], _, _, _, _ => rfl
  | _ :: _, [], _, h, _ => by simp [strLeList] at h
  | _ :: _, _ :: _, [], _, h => by simp [strLeList] at h
  | a :: as, b :: bs, c :: cs, h1, h2 => by
    simp only [strLeList] at h1 h2 ⊢
    rcases Nat.lt_trichotomy a.toNat c.toNat with h | h | h
    · simp [h]
    · have g1 : ¬ a.toNat < c.toNat := by omega
      have g2 : ¬ c.toNat < a.toNat := by omega
      simp only [if_neg g1, if_neg g2]
      rcases Nat.lt_trichotomy a.toNat b.toNat with hab | hab | hab
      · rcases Nat.lt_trichotomy b.toNat c.toNat with hbc | hbc | hbc
        · omega
        · omega
        · simp [if_neg (show ¬ b.toNat < c.toNat by omega), hbc] at h2
      · have : ¬ b.toNat < a.toNat := by omega
        simp only [if_neg (show ¬ a.toNat < b.toNat by omega), if_neg this] at h1
        have : ¬ b.toNat < c.toNat := by omega
        simp only [if_neg (show ¬ b.toNat < c.toNat by omega),
          if_neg (show ¬ c.toNat < b.toNat by omega)] at h2
        exact strLeList_trans as bs cs h1 h2
      · simp [if_neg (show ¬ a.toNat < b.toNat by omega), hab] at h1
    · rcases Nat.lt_trichotomy a.toNat b.toNat with hab | hab | hab
      · have hbc : c.toNat < b.toNat := by omega
        simp [if_neg (show ¬ b.toNat < c.toNat by omega), hbc] at h2
      · have hbc : c.toNat < b.toNat := by omega
        simp [if_neg (show ¬ b.toNat < c.toNat by omega), hbc] at h2
      · simp [if_neg (show ¬ a.toNat < b.toNat by omega), hab] at h1

theorem strLeList_antisymm : ∀ a b : List Char,
    strLeList a b = true → strLeList b a = true → a = b
  | [], [], _, _ => rfl
  | [], _ :: _, _, h => by simp [strLeList] at h
  | _ :: _, [], h, _ => by simp [strLeList] at h
  | a :: as, b :: bs, h1, h2 => by
    simp only [strLeList] at h1 h2
    rcases Nat.lt_trichotomy a.toNat b.toNat with h | h | h
    · simp [if_neg (show ¬ b.toNat < a.toNat by omega), h] at h2
    · have g1 : ¬ a.toNat < b.toNat := by omega
      have g2 : ¬ b.toNat < a.toNat := by omega
      simp only [if_neg g1, if_neg g2] at h1 h2
      rw [charToNat_inj h, strLeList_antisymm as bs h1 h2]
    · simp [if_neg (show ¬ a.toNat < b.toNat by omega), h] at h1

/-- The `pySorted` order as a relation on strings. -/
def pyStrLeRel (a b : String) : Prop := pyStrLe a b = true

instance : DecidableRel pyStrLeRel := fun a b => instDecidableEqBool (pyStrLe a b) true

instance : IsTotal String pyStrLeRel :=
  ⟨fun a b => strLeList_total a.data b.data⟩

instance : IsTrans String pyStrLeRel :=
  ⟨fun a b c => strLeList_trans a.data b.data c.data⟩

instance : IsAntisymm String pyStrLeRel :=
  ⟨fun a b h1 h2 => by
    cases a; cases b
    exact congrArg String.mk (strLeList_antisymm _ _ h1 h2)⟩

theorem pySorted_eq_insertionSortRel (l : List String) :
    pySorted l = List.insertionSort pyStrLeRel l := rfl

/-! ## Helper lemmas: Python `str.split(":")` -/

theorem splitChar_not_mem (c : Char) : ∀ a : List Char, c ∉ a → splitChar c a = [a]
  | [], _ => rfl
  | x :: xs, h => by
    have hx : ¬ x = c := fun hh => h (by simp [hh])
    have ht : c ∉ xs := fun hh => h (by simp [hh])
    simp only [splitChar, if_neg hx, splitChar_not_mem c xs ht]

theorem splitChar_append (c : Char) :
    ∀ a b : List Char, c ∉ a → c ∉ b → splitChar c (a ++ c :: b) = [a, b]
  | [], b, _, hb => by simp [splitChar, splitChar_not_mem c b hb]
  | x :: xs, b, ha, hb => by
    have hx : ¬ x = c := fun hh => ha (by simp [hh])
    have ht : c ∉ xs := fun hh => ha (by simp [hh])
    have ih := splitChar_append c xs b ht hb
    rw [List.cons_append]
    simp only [splitChar, if_neg hx, ih]

theorem pySplit_pair (p v : String) (hp : ':' ∉ p.data) (hv : ':' ∉ v.data) :
    pySplit (p ++ ":" ++ v) ':' = [p, v] := by
  unfold pySplit
  have hdata : (p ++ ":" ++ v).data = p.data ++ ':' :: v.data := by
    rw [String.data_append, String.data_append]
    show p.data ++ [':'] ++ v.data = _
    simp
  rw [hdata, splitChar_append ':' p.data v.data hp hv]
  cases p; cases v; rfl

theorem mergeLabels_pair (p1 v1 p2 v2 : String)
    (hp1 : ':' ∉ p1.data) (hv1 : ':' ∉ v1.data)
    (hp2 : ':' ∉ p2.data) (hv2 : ':' ∉ v2.data) :
    mergeLabels (p1 ++ ":" ++ v1) (p2 ++ ":" ++ v2) =
      some ((if p1 = p2 then p1 else p1 ++ "-" ++ p2) ++ ":" ++ v1) := by
  unfold mergeLabels
  rw [pySplit_pair p1 v1 hp1 hv1, pySplit_pair p2 v2 hp2 hv2]
  rfl

theorem label_pair_inj {p1 v1 p2 v2 : String}
    (hp1 : ':' ∉ p1.data) (hv1 : ':' ∉ v1.data)
    (hp2 : ':' ∉ p2.data) (hv2 : ':' ∉ v2.data)
    (h : p1 ++ ":" ++ v1 = p2 ++ ":" ++ v2) : p1 = p2 ∧ v1 = v2 := by
  have := pySplit_pair p1 v1 hp1 hv1
  rw [h, pySplit_pair p2 v2 hp2 hv2] at this
  exact ⟨(by injection this with h1 _; exact h1.symm),
    (by injection this with _ h2; injection h2 with h3 _; exact h3.symm)⟩

/-! ## C3: link group identity is symmetric in direction -/

/-- **C3** (confirmed).  Link group identity is symmetric in direction: for
every link dict, swapping `source` and `target` (keeping the label) yields
the same `_make_hash_tuple` group key — the key is the sorted 3-tuple of
source, target and label, so `A→B` and `B→A` with one label collide. -/
theorem c3_hash_symmetry (l : Link) :
    makeHashTuple { l with source := l.target, target := l.source } = makeHashTuple l := by
  show pySorted [l.target, l.source, l.label] = pySorted [l.source, l.target, l.label]
  rw [pySorted_eq_insertionSortRel, pySorted_eq_insertionSortRel]
  refine List.eq_of_perm_of_sorted ?_
    (List.sorted_insertionSort pyStrLeRel _) (List.sorted_insertionSort pyStrLeRel _)
  exact (List.perm_insertionSort pyStrLeRel _).trans
    ((List.Perm.swap l.source l.target [l.label]).trans
      (List.perm_insertionSort pyStrLeRel _).symm)

/-! ## C9: idempotent re-insertion into a link group -/

/-- **C9** (confirmed).  For every link group and every link object exactly
equal to one already present in that group's list, `_add_link` (with any
`link_data`) leaves the instance state — in particular that group's list
and its length — completely unchanged. -/
theorem c9_idempotent_insert (cfg : Config) (st : IsisState) (link : Link) (ld : Desc)
    (ls : List Link) (hget : pyGet st.links_dict (makeHashTuple link) = some ls)
    (hmem : link ∈ ls) : addLink cfg st link ld = st := by
  have hsd : pySetdefault st.links_dict (makeHashTuple link) [] = st.links_dict :=
    pySetdefault_of_isSome _ _ _ (by simp [hget])
  unfold addLink addLinkMark
  simp only [hsd, hget, Option.getD_some, if_pos hmem]

/-- Concrete link for the C9 witness. -/
def w9link : Link :=
  { source := "R1", target := "R2", label := "1:L1", src_label := "Gi1:10" }

/-- Concrete instance state for the C9 witness: one group holding `w9link`. -/
def w9state : IsisState := { links_dict := [(makeHashTuple w9link, [w9link])] }

/-- Witness for C9 at a concrete group. -/
theorem c9_idempotent_insert_witness : addLink {} w9state w9link [("R1", "d")] = w9state :=
  c9_idempotent_insert _ _ _ _ [w9link] (by simp [w9state, pyGet]) (by simp)

/-! ## C4: node deduplication with first-writer-wins fill-in -/

theorem foldl_preserve {α β : Type} (P : α → Prop) (f : α → β → α) (l : List β) (a : α)
    (hf : ∀ a b, P a → P (f a b)) (ha : P a) : P (l.foldl f a) := by
  induction l generalizing a with
  | nil => exact ha
  | cons x xs ih => exact ih _ (hf _ _ ha)

theorem addNode_keys_nodup (cfg : Config) (st : IsisState) (node : Node)
    (nd : Option String) (h : (st.nodes_dict.map Prod.fst).Nodup) :
    (((addNode cfg st node nd).nodes_dict.map Prod.fst)).Nodup := by
  unfold addNode
  cases hget : pyGet st.nodes_dict node.id with
  | none =>
    have hnotmem : node.id ∉ st.nodes_dict.map Prod.fst := by
      intro hmem
      have := pyGet_isSome_of_mem_fst st.nodes_dict node.id hmem
      rw [hget] at this
      simp at this
    by_cases hc : (nd.isSome && cfg.add_data) = true <;>
      simp [hc, List.nodup_append, h, hnotmem]
  | some stored =>
    simp only
    rw [aset_map_fst _ _ _ (by simp [hget])]
    exact h

theorem addLink_frame (cfg : Config) (st : IsisState) (link : Link) (ld : Desc) :
    (addLink cfg st link ld).nodes_dict = st.nodes_dict ∧
    (addLink cfg st link ld).graph_nodes = st.graph_nodes ∧
    (addLink cfg st link ld).graph_links = st.graph_links := by
  unfold addLink addLinkMark
  by_cases h1 : link ∈ (pyGet (pySetdefault st.links_dict (makeHashTuple link) [])
      (makeHashTuple link)).getD []
  · simp [h1]
  · simp [h1]

theorem addNode_frame (cfg : Config) (st : IsisState) (node : Node) (nd : Option String) :
    (addNode cfg st node nd).links_dict = st.links_dict ∧
    (addNode cfg st node nd).graph_nodes = st.graph_nodes ∧
    (addNode cfg st node nd).graph_links = st.graph_links := by
  unfold addNode
  cases hget : pyGet st.nodes_dict node.id <;> exact ⟨rfl, rfl, rfl⟩

theorem processLsp_keys_nodup (cfg : Config) (st : IsisState) (lsp : Lsp) (pid : String)
    (h : (st.nodes_dict.map Prod.fst).Nodup) :
    (((processLsp cfg st lsp pid).nodes_dict.map Prod.fst)).Nodup := by
  unfold processLsp
  dsimp only
  have hbase : ∀ (st' : IsisState), (st'.nodes_dict.map Prod.fst).Nodup →
      (((lsp.links.foldl
        (fun st lk =>
          if ptpFiltered cfg lk then st
          else addLink cfg st (mkRawLink lsp pid lk) [(lsp.hostname, dumpsLspLink pid lk)])
        st').nodes_dict.map Prod.fst)).Nodup := by
    intro st' h'
    refine foldl_preserve (fun s : IsisState => ((s.nodes_dict.map Prod.fst)).Nodup)
      _ _ _ ?_ h'
    intro a b ha
    by_cases hb : ptpFiltered cfg b
    · simpa [hb] using ha
    · simp only [if_neg hb]
      rw [(addLink_frame _ _ _ _).1]
      exact ha
  by_cases hc : cfg.add_connected
  · simp only [if_pos hc]
    refine foldl_preserve (fun s : IsisState => ((s.nodes_dict.map Prod.fst)).Nodup)
      _ _ _ ?_ (hbase _ (addNode_keys_nodup _ _ _ _ h))
    intro a b ha
    rw [(addLink_frame cfg (addNode cfg a (mkSubnetNode b) none) (mkSubnetLink lsp b) []).1]
    exact addNode_keys_nodup _ _ _ _ ha
  · simp only [if_neg hc]
    exact hbase _ (addNode_keys_nodup _ _ _ _ h)

theorem formBaseGraphDict_keys_nodup (cfg : Config) (st : IsisState) (devices : List Device)
    (h : (st.nodes_dict.map Prod.fst).Nodup) :
    (((formBaseGraphDict cfg st devices).nodes_dict.map Prod.fst)).Nodup := by
  unfold formBaseGraphDict
  refine foldl_preserve (fun s : IsisState => ((s.nodes_dict.map Prod.fst)).Nodup) _ _ _ ?_ h
  intro a dev ha
  refine foldl_preserve (fun s : IsisState => ((s.nodes_dict.map Prod.fst)).Nodup) _ _ _ ?_ ha
  intro a2 p ha2
  refine foldl_preserve (fun s : IsisState => ((s.nodes_dict.map Prod.fst)).Nodup) _ _ _ ?_ ha2
  intro a3 lsp ha3
  exact processLsp_keys_nodup _ _ _ _ ha3

/-- **C4** (confirmed).  Node deduplication with first-writer-wins fill-in:
(1) building the graph from any parsed record sequence yields a nodes
mapping whose keys are pairwise distinct — exactly one `Node` per distinct
hostname id however many LSPs report it; (2) on a repeat sighting of an id,
`_add_node` keeps the key set unchanged and, on the stored node, every
already-present attribute (label, top label, bottom label, description)
keeps its old value — in particular `bottom_label` once set to `"Node"` is
never overwritten — while an absent display attribute is filled from the
new sighting. -/
theorem c4_node_dedup :
    (∀ (cfg : Config) (devices : List Device),
      (((formBaseGraphDict cfg initialState devices).nodes_dict.map Prod.fst)).Nodup) ∧
    (∀ (cfg : Config) (st : IsisState) (node : Node) (nd : Option String) (stored : Node),
      pyGet st.nodes_dict node.id = some stored →
      (addNode cfg st node nd).nodes_dict.map Prod.fst = st.nodes_dict.map Prod.fst ∧
      ∃ r : Node, pyGet (addNode cfg st node nd).nodes_dict node.id = some r ∧
        (∀ v, stored.label = some v → r.label = some v) ∧
        (stored.label = none → r.label = node.label) ∧
        (∀ v, stored.top_label = some v → r.top_label = some v) ∧
        (stored.top_label = none → r.top_label = node.top_label) ∧
        (∀ v, stored.bottom_label = some v → r.bottom_label = some v) ∧
        (stored.bottom_label = none → r.bottom_label = node.bottom_label) ∧
        (∀ v, stored.description = some v → r.description = some v)) := by
  constructor
  · intro cfg devices
    exact formBaseGraphDict_keys_nodup cfg initialState devices (by simp [initialState])
  · intro cfg st node nd stored hget
    unfold addNode
    rw [hget]
    simp only
    constructor
    · exact aset_map_fst _ _ _ (by simp [hget])
    · refine ⟨_, pyGet_aset_same _ _ _, ?_⟩
      by_cases hdesc : ((fillAbsentNode stored node).description.isNone &&
          (nd.isSome && cfg.add_data)) = true
      · have hsd : stored.description = none := by
          rw [Bool.and_eq_true, Option.isNone_iff_eq_none] at hdesc
          have h1 := hdesc.1
          unfold fillAbsentNode at h1
          cases hs : stored.description with
          | none => rfl
          | some v => rw [hs] at h1; simp at h1
        simp only [if_pos hdesc]
        refine ⟨?_, ?_, ?_, ?_, ?_, ?_, ?_⟩
        · intro v hv; simp [fillAbsentNode, hv]
        · intro hv; simp [fillAbsentNode, hv]
        · intro v hv; simp [fillAbsentNode, hv]
        · intro hv; simp [fillAbsentNode, hv]
        · intro v hv; simp [fillAbsentNode, hv]
        · intro hv; simp [fillAbsentNode, hv]
        · intro v hv; rw [hv] at hsd; exact absurd hsd (by simp)
      · simp only [if_neg hdesc]
        refine ⟨?_, ?_, ?_, ?_, ?_, ?_, ?_⟩
        · intro v hv; simp [fillAbsentNode, hv]
        · intro hv; simp [fillAbsentNode, hv]
        · intro v hv; simp [fillAbsentNode, hv]
        · intro hv; simp [fillAbsentNode, hv]
        · intro v hv; simp [fillAbsentNode, hv]
        · intro hv; simp [fillAbsentNode, hv]
        · intro v hv; simp [fillAbsentNode, hv]

/-- Concrete state for the C4 witness: `"R1"` already stored with
`bottom_label = "Node"`. -/
def w4state : IsisState :=
  { nodes_dict := [("R1", { id := "R1", bottom_label := some "Node" })] }

/-- Later sighting proposing a different `bottom_label`. -/
def w4node : Node := { id := "R1", label := some "R1", bottom_label := some "Changed" }

/-- Witness for C4 (second conjunct) at a concrete repeat sighting. -/
theorem c4_node_dedup_witness :
    (addNode {} w4state w4node none).nodes_dict.map Prod.fst = w4state.nodes_dict.map Prod.fst ∧
    ∃ r : Node, pyGet (addNode {} w4state w4node none).nodes_dict w4node.id = some r ∧
      (∀ v, ({ id := "R1", bottom_label := some "Node" } : Node).label = some v →
        r.label = some v) ∧
      (({ id := "R1", bottom_label := some "Node" } : Node).label = none →
        r.label = w4node.label) ∧
      (∀ v, ({ id := "R1", bottom_label := some "Node" } : Node).top_label = some v →
        r.top_label = some v) ∧
      (({ id := "R1", bottom_label := some "Node" } : Node).top_label = none →
        r.top_label = w4node.top_label) ∧
      (∀ v, ({ id := "R1", bottom_label := some "Node" } : Node).bottom_label = some v →
        r.bottom_label = some v) ∧
      (({ id := "R1", bottom_label := some "Node" } : Node).bottom_label = none →
        r.bottom_label = w4node.bottom_label) ∧
      (∀ v, ({ id := "R1", bottom_label := some "Node" } : Node).description = some v →
        r.description = some v) :=
  c4_node_dedup.2 {} w4state w4node none { id := "R1", bottom_label := some "Node" }
    (by simp [w4state, w4node, pyGet])

/-! ## C5: ptp-filter exclusion -/

theorem addLink_links_congr (cfg : Config) (st1 st2 : IsisState) (link : Link) (ld : Desc)
    (h : st1.links_dict = st2.links_dict) :
    (addLink cfg st1 link ld).links_dict = (addLink cfg st2 link ld).links_dict := by
  unfold addLink addLinkMark
  rw [h]
  by_cases h1 : link ∈ (pyGet (pySetdefault st2.links_dict (makeHashTuple link) [])
      (makeHashTuple link)).getD []
  · simp only [if_pos h1]
  · simp only [if_neg h1]

theorem links_fold_congr (cfg : Config) (lsp : Lsp) (pid : String) :
    ∀ (links : List LspLink) (st1 st2 : IsisState),
      st1.links_dict = st2.links_dict →
      ((links.foldl
          (fun st lk =>
            if ptpFiltered cfg lk then st
            else addLink cfg st (mkRawLink lsp pid lk) [(lsp.hostname, dumpsLspLink pid lk)])
          st1)).links_dict =
      (((links.filter (fun lk => !ptpFiltered cfg lk)).foldl
          (fun st lk => addLink cfg st (mkRawLink lsp pid lk)
            [(lsp.hostname, dumpsLspLink pid lk)])
          st2)).links_dict
  | [], st1, st2, h => h
  | lk :: rest, st1, st2, h => by
    by_cases hf : ptpFiltered cfg lk
    · simp only [List.foldl_cons, if_pos hf, List.filter_cons, hf]
      exact links_fold_congr cfg lsp pid rest st1 st2 h
    · simp only [List.foldl_cons, if_neg hf, List.filter_cons, hf]
      simp only [Bool.not_false, if_pos]
      exact links_fold_congr cfg lsp pid rest _ _
        (addLink_links_congr cfg st1 st2 _ _ h)

theorem networks_fold_congr (cfg : Config) (lsp : Lsp) :
    ∀ (networks : List LspNetwork) (st1 st2 : IsisState),
      st1.links_dict = st2.links_dict →
      ((networks.foldl
          (fun st n =>
            addLink cfg (addNode cfg st (mkSubnetNode n) none) (mkSubnetLink lsp n) [])
          st1)).links_dict =
      ((networks.foldl
          (fun st n =>
            addLink cfg (addNode cfg st (mkSubnetNode n) none) (mkSubnetLink lsp n) [])
          st2)).links_dict
  | [], _, _, h => h
  | n :: rest, st1, st2, h => by
    simp only [List.foldl_cons]
    refine networks_fold_congr cfg lsp rest _ _ ?_
    refine addLink_links_congr cfg _ _ _ _ ?_
    rw [(addNode_frame cfg st1 (mkSubnetNode n) none).1,
      (addNode_frame cfg st2 (mkSubnetNode n) none).1, h]

/-- **C5** (confirmed).  Filter exclusion: `_process_lsp` inserts no link
for an adjacency whose local IP (`""` when absent) glob-matches some
`ptp_filter` pattern — the links mapping it produces is exactly the one
produced when those adjacencies are removed from the LSP up front.  Since
every later stage (`_pack_links`, `_lookup_ip_interfaces`,
`_update_drawing`'s link list) reads links only from this mapping, no such
link can appear, directly or inside a merged link, in the final output
link set.  (The full states can differ in the node `description` snapshot,
which serializes the unfiltered LSP record; the links mapping is what the
claim is about.) -/
theorem c5_filter_exclusion (cfg : Config) (st : IsisState) (lsp : Lsp) (pid : String) :
    (processLsp cfg st lsp pid).links_dict =
      (processLsp cfg st
        { lsp with links := lsp.links.filter (fun lk => !ptpFiltered cfg lk) } pid).links_dict := by
  unfold processLsp
  dsimp only
  have e1 : mkMainNode { lsp with links := lsp.links.filter (fun lk => !ptpFiltered cfg lk) } = mkMainNode lsp := rfl
  have e2 : mkRawLink { lsp with links := lsp.links.filter (fun lk => !ptpFiltered cfg lk) } = mkRawLink lsp := rfl
  have e3 : mkSubnetLink { lsp with links := lsp.links.filter (fun lk => !ptpFiltered cfg lk) } = mkSubnetLink lsp := rfl
  have e4 : ({ lsp with links := lsp.links.filter (fun lk => !ptpFiltered cfg lk) } : Lsp).hostname = lsp.hostname := rfl
  have e5 : ({ lsp with links := lsp.links.filter (fun lk => !ptpFiltered cfg lk) } : Lsp).networks = lsp.networks := rfl
  have e6 : ({ lsp with links := lsp.links.filter (fun lk => !ptpFiltered cfg lk) } : Lsp).links = lsp.links.filter (fun lk => !ptpFiltered cfg lk) := rfl
  simp only [e1, e2, e3, e4, e5, e6]
  have hAB : (addNode cfg st (mkMainNode lsp) (some (dumpsLsp lsp))).links_dict =
      (addNode cfg st (mkMainNode lsp)
        (some (dumpsLsp { lsp with links := lsp.links.filter (fun lk => !ptpFiltered cfg lk) }))).links_dict := by
    rw [(addNode_frame _ _ _ _).1, (addNode_frame _ _ _ _).1]
  by_cases hc : cfg.add_connected
  · simp only [if_pos hc]
    refine networks_fold_congr cfg lsp lsp.networks _ _ ?_
    rw [links_fold_congr cfg lsp pid lsp.links _ _ hAB,
      links_fold_congr cfg lsp pid (lsp.links.filter (fun lk => !ptpFiltered cfg lk)) _ _ rfl,
      List.filter_filter]
    simp
  · simp only [if_neg hc]
    rw [links_fold_congr cfg lsp pid lsp.links _ _ hAB,
      links_fold_congr cfg lsp pid (lsp.links.filter (fun lk => !ptpFiltered cfg lk)) _ _ rfl,
      List.filter_filter]
    simp

/-! ## C6: interface-enrichment pass is *not* independent per label -/

/-- Lookup table for the C6 failing input. -/
def w6table : List (String × PyDict) := [("10.0.0.1", [("interface", "Eth1")])]

/-- Failing input for C6: non-IPv4 `src_label`, rewritable `trgt_label`. -/
def w6link : Link :=
  { source := "R1", target := "R2", label := "1:L2", src_label := "Gi0/0/0/1:10",
    trgt_label := PyOpt.val "10.0.0.1:10" }

/-- Packed state holding `w6link`. -/
def w6state : IsisState := { links_dict := [(makeHashTuple w6link, [w6link])] }

/-- **C6** (code bug).  The spec says `src_label` and `trgt_label` are
considered independently, but the `continue` in the `src_label` block of
`_lookup_ip_interfaces` skips the *whole link* when the source IP does not
look IPv4.  At the failing input: the `trgt_label` IP `10.0.0.1` counts 3
dots and has a non-empty `interface` entry in the table — so per the spec
it must be rewritten to `"Eth1:10.0.0.1:10"` — yet the pass returns the
state unchanged, because `src_label` `"Gi0/0/0/1:10"` is not IPv4-shaped.
The last conjunct shows the same link with an IPv4-shaped `src_label` does
get its `trgt_label` rewritten, isolating the `continue` as the cause. -/
theorem c6_enrichment_bug :
    pyCountChar "10.0.0.1" '.' = 3 ∧
    (pyGet w6table "10.0.0.1").map (fun r => pyGet r "interface") =
      some (some "Eth1") ∧
    lookupIpInterfaces { ip_lookup_data := w6table } w6state = some w6state ∧
    processLinkIntf w6table { w6link with src_label := "10.9.9.9:10" } =
      some { w6link with src_label := "10.9.9.9:10",
                         trgt_label := PyOpt.val "Eth1:10.0.0.1:10" } := by
  refine ⟨by decide, by decide, ?_, by decide⟩
  decide

/-! ## C8: lookup-table load behaviour -/

theorem dictReaderRow_pyGet_none (k : String) : ∀ (header row : List String),
    k ∉ header → pyGet (dictReaderRow header row) k = none
  | [], _, _ => rfl
  | h :: hs, [], hk => by
    have h1 : ¬ h = k := fun hh => hk (by simp [hh])
    simp only [dictReaderRow, pyGet, if_neg h1]
    exact dictReaderRow_pyGet_none k hs [] (fun hh => hk (by simp [hh]))
  | h :: hs, _ :: vs, hk => by
    have h1 : ¬ h = k := fun hh => hk (by simp [hh])
    simp only [dictReaderRow, pyGet, if_neg h1]
    exact dictReaderRow_pyGet_none k hs vs (fun hh => hk (by simp [hh]))

/-- Counterexample to **C8**: a CSV whose header lacks the `ip` column does
*not* fail as a fatal format error — the `if "ip" in r` guard silently
skips every row and the loader returns an empty table. -/
theorem c8_counterexample :
    loadIpLookupData (some { header := ["hostname", "interface"], rows := [["r1", "Gi1"]] }) =
      Except.ok [] := rfl

/-- **C8** (corrected).  Amended behaviour of `_load_ip_lookup_data` for a
path argument: an unreadable path raises an I/O error; a CSV whose header
lacks an `ip` column loads *without error* as an empty table (every row is
skipped by the `"ip" in r` guard); a readable CSV never aborts the load —
in particular `csv.DictReader` pads short rows, so a row never individually
lacks the `ip` key when the header has one. -/
theorem c8_load_amended :
    (loadIpLookupData none = Except.error "OSError") ∧
    (∀ f : CsvFile, "ip" ∉ f.header → loadIpLookupData (some f) = Except.ok []) ∧
    (∀ f : CsvFile, ∃ t, loadIpLookupData (some f) = Except.ok t) := by
  refine ⟨rfl, ?_, fun f => ⟨_, rfl⟩⟩
  intro f hip
  unfold loadIpLookupData
  dsimp only
  have hall : ∀ r ∈ (f.rows.filter (fun r => !r.isEmpty)).map (dictReaderRow f.header),
      ¬ ((pyGet r "ip").isSome = true) := by
    intro r hr
    simp only [List.mem_map] at hr
    obtain ⟨row, _, rfl⟩ := hr
    rw [dictReaderRow_pyGet_none _ _ _ hip]
    simp
  rw [List.filter_eq_nil_iff.mpr hall]
  rfl

/-- Witness for the amended C8 at a concrete ip-less CSV. -/
theorem c8_load_amended_witness :
    loadIpLookupData (some { header := ["hostname"], rows := [["r2"]] }) = Except.ok [] :=
  c8_load_amended.2.1 { header := ["hostname"], rows := [["r2"]] } (by decide)

/-! ## C10: state accumulates across `work` invocations -/

theorem addLinkMark_frame (cfg : Config) (st : IsisState) (link : Link) (ld : Desc) :
    (addLinkMark cfg st link ld).1.nodes_dict = st.nodes_dict ∧
    (addLinkMark cfg st link ld).1.graph_nodes = st.graph_nodes ∧
    (addLinkMark cfg st link ld).1.graph_links = st.graph_links := by
  unfold addLinkMark
  by_cases h1 : link ∈ (pyGet (pySetdefault st.links_dict (makeHashTuple link) [])
      (makeHashTuple link)).getD []
  · simp [h1]
  · simp [h1]

theorem processLsp_graph_links (cfg : Config) (st : IsisState) (lsp : Lsp) (pid : String) :
    (processLsp cfg st lsp pid).graph_links = st.graph_links := by
  unfold processLsp
  dsimp only
  have hfold : ∀ (st' : IsisState), st'.graph_links = st.graph_links →
      ((lsp.links.foldl
        (fun st lk =>
          if ptpFiltered cfg lk then st
          else addLink cfg st (mkRawLink lsp pid lk) [(lsp.hostname, dumpsLspLink pid lk)])
        st')).graph_links = st.graph_links := by
    intro st' h'
    refine foldl_preserve (fun s : IsisState => s.graph_links = st.graph_links) _ _ _ ?_ h'
    intro a b ha
    by_cases hb : ptpFiltered cfg b
    · simpa [hb] using ha
    · simp only [if_neg hb]
      rw [(addLink_frame _ _ _ _).2.2]
      exact ha
  by_cases hc : cfg.add_connected
  · simp only [if_pos hc]
    refine foldl_preserve (fun s : IsisState => s.graph_links = st.graph_links) _ _ _ ?_
      (hfold _ (addNode_frame _ _ _ _).2.2)
    intro a b ha
    rw [(addLink_frame _ _ _ _).2.2, (addNode_frame _ _ _ _).2.2]
    exact ha
  · simp only [if_neg hc]
    exact hfold _ (addNode_frame _ _ _ _).2.2

theorem formBaseGraphDict_graph_links (cfg : Config) (st : IsisState) (devices : List Device) :
    (formBaseGraphDict cfg st devices).graph_links = st.graph_links := by
  unfold formBaseGraphDict
  refine foldl_preserve (fun s : IsisState => s.graph_links = st.graph_links) _ _ _ ?_ rfl
  intro a dev ha
  refine foldl_preserve (fun s : IsisState => s.graph_links = st.graph_links) _ _ _ ?_ ha
  intro a2 p ha2
  refine foldl_preserve (fun s : IsisState => s.graph_links = st.graph_links) _ _ _ ?_ ha2
  intro a3 lsp ha3
  rw [processLsp_graph_links]
  exact ha3

theorem packPair_graph_links (cfg : Config) (st : IsisState) (cand l2 : Link)
    (st' : IsisState) (h : packPair cfg st cand l2 = some st') :
    st'.graph_links = st.graph_links := by
  unfold packPair at h
  dsimp only at h
  split at h
  · split at h
    · injection h with h
      rw [← h]
      exact (addLinkMark_frame _ _ _ _).2.2
    · split at h
      · cases h
      · split at h
        · injection h with h
          rw [← h]
          exact (addLinkMark_frame _ _ _ _).2.2
        · injection h with h
          rw [← h]
          exact (addLinkMark_frame _ _ _ _).2.2
  · cases h

theorem packGroupLoop_graph_links (cfg : Config) :
    ∀ (fuel : Nat) (st : IsisState) (pool : List Link) (st' : IsisState),
      packGroupLoop cfg fuel st pool = some st' → st'.graph_links = st.graph_links
  | fuel, st, [], st', h => by
    unfold packGroupLoop at h
    cases fuel <;> (injection h with h; rw [← h])
  | 0, st, p :: ps, st', h => by
    simp [packGroupLoop] at h
  | fuel + 1, st, p :: ps, st', h => by
    unfold packGroupLoop at h
    dsimp only at h
    split at h
    case _ lid pid pip lip _ =>
      split at h
      · split at h
        · cases h
        · rw [packGroupLoop_graph_links cfg fuel _ _ _ h, (addLink_frame _ _ _ _).2.2]
        · split at h
          · cases h
          case _ stM hM =>
            rw [packGroupLoop_graph_links cfg fuel _ _ _ h]
            exact packPair_graph_links _ _ _ _ _ hM
      · split at h
        · split at h
          · cases h
          · rw [packGroupLoop_graph_links cfg fuel _ _ _ h, (addLink_frame _ _ _ _).2.2]
          · split at h
            · cases h
            case _ stM hM =>
              rw [packGroupLoop_graph_links cfg fuel _ _ _ h]
              exact packPair_graph_links _ _ _ _ _ hM
        · rw [packGroupLoop_graph_links cfg fuel _ _ _ h, (addLink_frame _ _ _ _).2.2]
    · cases h

theorem packLinksAux_graph_links (cfg : Config) :
    ∀ (keys : List (List String)) (st : IsisState) (st' : IsisState),
      packLinksAux cfg keys st = some st' → st'.graph_links = st.graph_links
  | [], st, st', h => by
    injection h with h
    rw [← h]
  | k :: ks, st, st', h => by
    unfold packLinksAux at h
    split at h
    · cases h
    case _ links _ =>
      split at h
      · rw [packLinksAux_graph_links cfg ks _ _ h]
      · dsimp only at h
        split at h
        · cases h
        case _ stM hM =>
          split at h
          · rw [packLinksAux_graph_links cfg ks _ _ h]
            have hg := packGroupLoop_graph_links cfg _ _ _ _ hM
            exact hg
          · cases h

theorem packLinks_graph_links (cfg : Config) (st st' : IsisState)
    (h : packLinks cfg st = some st') : st'.graph_links = st.graph_links :=
  packLinksAux_graph_links cfg _ st st' h

theorem lookupRid_frame (cfg : Config) (st st' : IsisState)
    (h : lookupRid cfg st = some st') :
    st'.graph_links = st.graph_links ∧ st'.links_dict = st.links_dict := by
  unfold lookupRid at h
  cases hm : st.nodes_dict.mapM (fun p =>
      match p.2.top_label with
      | none => none
      | some node_ip =>
        match pyGet cfg.ip_lookup_data node_ip with
        | none => pure p
        | some r =>
          let n := p.2
          let n := match pyGet r "top_label" with
            | some v => { n with top_label := some v }
            | none => n
          let n := match pyGet r "bottom_label" with
            | some v => { n with bottom_label := some v }
            | none => n
          let n := match pyGet r "label" with
            | some v => { n with label := some v }
            | none => n
          pure (p.1, n)) with
  | none => rw [hm] at h; cases h
  | some nd =>
    rw [hm] at h
    injection h with h
    rw [← h]
    exact ⟨rfl, rfl⟩

theorem lookupIpInterfaces_frame (cfg : Config) (st st' : IsisState)
    (h : lookupIpInterfaces cfg st = some st') :
    st'.graph_links = st.graph_links := by
  unfold lookupIpInterfaces at h
  cases hm : st.links_dict.mapM (fun p => do
      let ls ← p.2.mapM (processLinkIntf cfg.ip_lookup_data)
      pure (p.1, ls)) with
  | none => rw [hm] at h; cases h
  | some ld =>
    rw [hm] at h
    injection h with h
    rw [← h]

theorem work_graph_links (cfg : Config) (st : IsisState) (parsed : List Device)
    (st' : IsisState) (h : work cfg st parsed = some st') :
    st'.graph_links = st.graph_links ++ (st'.links_dict.map Prod.snd).flatten := by
  unfold work at h
  dsimp only at h
  split at h
  · cases h
  case _ st2 hP =>
    split at h
    · cases h
    case _ st3 h3 =>
      injection h with h
      have hPg : st2.graph_links = st.graph_links := by
        rw [packLinks_graph_links cfg _ _ hP, formBaseGraphDict_graph_links]
      have hLg : st3.graph_links = st.graph_links := by
        by_cases hc : cfg.ip_lookup_data = []
        · rw [if_pos hc] at h3
          injection h3 with h3
          rw [← h3]
          exact hPg
        · rw [if_neg hc] at h3
          split at h3
          · cases h3
          case _ stR hR =>
            rw [lookupIpInterfaces_frame cfg _ _ h3, (lookupRid_frame cfg _ _ hR).1]
            exact hPg
      rw [← h]
      unfold updateDrawing
      dsimp only
      rw [hLg]

/-- **C10** (confirmed).  State accumulates across `work` invocations on one
instance: `graph_dict["links"]` is only ever extended (never cleared) while
`nodes_dict`/`links_dict` persist, so each call's payload to the drawing
sink is the previous payload's link list followed by a fresh flattening of
the (persisting) links mapping — in particular every link sent to the sink
by the first call is contained again in the payload of the second call,
which duplicates it at the sink. -/
theorem c10_state_accumulation (cfg : Config) (st : IsisState) (p1 p2 : List Device)
    (st1 st2 : IsisState) (h1 : work cfg st p1 = some st1)
    (h2 : work cfg st1 p2 = some st2) :
    st1.graph_links = st.graph_links ++ (st1.links_dict.map Prod.snd).flatten ∧
    st2.graph_links = st1.graph_links ++ (st2.links_dict.map Prod.snd).flatten ∧
    ∀ l ∈ st1.graph_links, l ∈ st2.graph_links := by
  refine ⟨work_graph_links cfg st p1 st1 h1, work_graph_links cfg st1 p2 st2 h2, ?_⟩
  intro l hl
  rw [work_graph_links cfg st1 p2 st2 h2]
  exact List.mem_append_left _ hl

/-- Witness for C10: two `work` calls on a fresh instance with empty parse
results. -/
theorem c10_state_accumulation_witness :
    (updateDrawing initialState).graph_links =
      initialState.graph_links ++
        (((updateDrawing initialState)).links_dict.map Prod.snd).flatten ∧
    (updateDrawing (updateDrawing initialState)).graph_links =
      (updateDrawing initialState).graph_links ++
        (((updateDrawing (updateDrawing initialState))).links_dict.map Prod.snd).flatten ∧
    ∀ l ∈ (updateDrawing initialState).graph_links,
      l ∈ (updateDrawing (updateDrawing initialState)).graph_links :=
  c10_state_accumulation {} initialState [] [] (updateDrawing initialState)
    (updateDrawing (updateDrawing initialState)) rfl rfl

/-! ## Packer computation lemmas (shared by C1, C2, C7) -/

theorem truthy_val {s : String} (h : s ≠ "") : truthy (PyOpt.val s) = true := by
  simp [truthy, h]

theorem stripCorr_hash (l : Link) : makeHashTuple (stripCorr l) = makeHashTuple l := rfl

theorem packGroupLoop_nil (cfg : Config) (fuel : Nat) (st : IsisState) :
    packGroupLoop cfg fuel st [] = some st := by
  cases fuel <;> rfl

theorem scanIntf_found (rest : List Link) (l2 : Link) (lid pid : PyOpt)
    (h1 : l2.peer_intf_id = lid) (h2 : l2.local_intf_id = pid)
    (hne1 : lid ≠ PyOpt.absent) (hne2 : pid ≠ PyOpt.absent) :
    scanIntf (l2 :: rest) lid pid = some (some l2) := by
  unfold scanIntf
  rw [h1, pyKey_of_ne_absent hne1]
  dsimp only
  rw [if_pos rfl, h2, pyKey_of_ne_absent hne2]
  dsimp only
  rw [if_pos rfl]

theorem scanIntf_skip (rest : List Link) (l2 : Link) (lid pid : PyOpt)
    (hk1 : l2.peer_intf_id ≠ PyOpt.absent) (hk2 : l2.local_intf_id ≠ PyOpt.absent)
    (hno : ¬(l2.peer_intf_id = lid ∧ l2.local_intf_id = pid)) :
    scanIntf (l2 :: rest) lid pid = scanIntf rest lid pid := by
  rw [scanIntf, pyKey_of_ne_absent hk1]
  dsimp only
  by_cases hp : l2.peer_intf_id = lid
  · rw [if_pos hp, pyKey_of_ne_absent hk2]
    dsimp only
    rw [if_neg (fun hq => hno ⟨hp, hq⟩)]
  · rw [if_neg hp]

/-- One loop iteration on a two-link pool whose candidate (the last
element, `y`) interface-pairs the only remaining link `x`. -/
theorem packGroupLoop_pair (cfg : Config) (fuel : Nat) (st : IsisState) (x y : Link)
    (ia ib : String)
    (hyL : y.local_intf_id = PyOpt.val ia) (hyP : y.peer_intf_id = PyOpt.val ib)
    (hia : ia ≠ "") (hib : ib ≠ "")
    (hyip : y.peer_ip ≠ PyOpt.absent) (hyip2 : y.local_ip ≠ PyOpt.absent)
    (hxP : x.peer_intf_id = PyOpt.val ia) (hxL : x.local_intf_id = PyOpt.val ib) :
    packGroupLoop cfg (fuel + 1) st [x, y] = packPair cfg st (stripCorr y) x := by
  unfold packGroupLoop
  simp only [lastOf, initOf]
  rw [hyL, hyP, pyKey_of_ne_absent hyip, pyKey_of_ne_absent hyip2]
  dsimp only [pyKey]
  rw [truthy_val hia, truthy_val hib]
  simp only [Bool.and_self, if_true]
  rw [scanIntf_found [] x (PyOpt.val ia) (PyOpt.val ib) hxP hxL (by simp) (by simp)]
  dsimp only
  rw [List.erase_cons_head]
  cases hp : packPair cfg st (stripCorr y) x with
  | none => rfl
  | some st' => exact packGroupLoop_nil cfg fuel st'

/-- One loop iteration on a single-link pool with truthy interface IDs:
no partner exists, the stripped candidate is re-added. -/
theorem packGroupLoop_one_nopair (cfg : Config) (fuel : Nat) (st : IsisState) (x : Link)
    (ia ib : String)
    (hxL : x.local_intf_id = PyOpt.val ia) (hxP : x.peer_intf_id = PyOpt.val ib)
    (hia : ia ≠ "") (hib : ib ≠ "")
    (hxip : x.peer_ip ≠ PyOpt.absent) (hxip2 : x.local_ip ≠ PyOpt.absent) :
    packGroupLoop cfg (fuel + 1) st [x] = some (addLink cfg st (stripCorr x) []) := by
  unfold packGroupLoop
  simp only [lastOf, initOf]
  rw [hxL, hxP, pyKey_of_ne_absent hxip, pyKey_of_ne_absent hxip2]
  dsimp only [pyKey]
  rw [truthy_val hia, truthy_val hib]
  simp only [Bool.and_self, if_true]
  dsimp only [scanIntf]
  exact packGroupLoop_nil cfg fuel _

/-- `_add_link` on a state whose dict is a single group `h` not containing
the (hash-compatible) link: the link is appended, with the description set
exactly when `link_data` is truthy and `add_data` is on. -/
theorem addLinkMark_group_append (cfg : Config) (st : IsisState) (link : Link) (ld : Desc)
    (h : List String) (g : List Link) (hst : st.links_dict = [(h, g)])
    (hh : makeHashTuple link = h) (hmem : link ∉ g) :
    addLinkMark cfg st link ld =
      ({ st with links_dict := [(h, g ++
          [if (!ld.isEmpty) && cfg.add_data then { link with description := some (pyDumps ld) }
           else link])] }, some h) := by
  unfold addLinkMark
  rw [hh, hst]
  dsimp only
  rw [pySetdefault_of_isSome _ _ _ (by simp [pyGet])]
  have hget : pyGet [(h, g)] h = some g := by simp [pyGet]
  rw [hget]
  dsimp only [Option.getD_some]
  rw [if_neg hmem]
  have haset : aset [(h, g)] h (g ++
      [if (!ld.isEmpty) && cfg.add_data then { link with description := some (pyDumps ld) }
       else link]) = [(h, g ++
      [if (!ld.isEmpty) && cfg.add_data then { link with description := some (pyDumps ld) }
       else link])] := by simp [aset]
  rw [haset]

theorem setLabelLast_single (h : List String) (x : Link) (lab : String) :
    setLabelLast [(h, [x])] h lab = [(h, [{ x with label := lab }])] := by
  unfold setLabelLast
  have hget : pyGet [(h, [x])] h = some [x] := by simp [pyGet]
  rw [hget]
  simp [aset]

/-- `packPair` when the two labels agree: no label rewrite happens. -/
theorem packPair_same_label (cfg : Config) (st : IsisState) (cand l2 : Link)
    (d1 d2 : Desc) (hd1 : cand.description = some d1) (hd2 : l2.description = some d2)
    (hlab : cand.label = l2.label) :
    packPair cfg st cand l2 =
      some (addLinkMark cfg st { cand with trgt_label := PyOpt.val l2.src_label }
        (pyDictMerge d1 d2)).1 := by
  unfold packPair
  have hd1' : ({ cand with trgt_label := PyOpt.val l2.src_label } : Link).description =
      some d1 := hd1
  rw [hd1', hd2]
  dsimp only
  rw [if_pos hlab]

/-- `packPair` when the labels differ and `_add_link` appended: the stored
link's label is mutated in place to the merged label. -/
theorem packPair_diff_label (cfg : Config) (st : IsisState) (cand l2 : Link)
    (d1 d2 : Desc) (M : String) (hk : List String)
    (hd1 : cand.description = some d1) (hd2 : l2.description = some d2)
    (hlab : cand.label ≠ l2.label)
    (hM : mergeLabels cand.label l2.label = some M)
    (hmark : (addLinkMark cfg st
      { cand with trgt_label := PyOpt.val l2.src_label, description := some d1 }
      (pyDictMerge d1 d2)).2 = some hk) :
    packPair cfg st cand l2 =
      some { (addLinkMark cfg st
          { cand with trgt_label := PyOpt.val l2.src_label, description := some d1 }
          (pyDictMerge d1 d2)).1 with
        links_dict := setLabelLast (addLinkMark cfg st
          { cand with trgt_label := PyOpt.val l2.src_label, description := some d1 }
          (pyDictMerge d1 d2)).1.links_dict
          hk M } := by
  unfold packPair
  have hd1' : ({ cand with trgt_label := PyOpt.val l2.src_label } : Link).description =
      some d1 := hd1
  rw [hd1', hd2]
  dsimp only
  rw [if_neg hlab, hM]
  dsimp only
  rw [hmark]

/-- `_pack_links` on a state holding exactly one group with at least two
links: the outer loop reduces to one run of the while loop on that group
(plus the `RuntimeError` guard on the key set). -/
theorem packLinks_single_group (cfg : Config) (st : IsisState) (h : List String)
    (ls : List Link) (hst : st.links_dict = [(h, ls)]) (hlen : 2 ≤ ls.length) :
    packLinks cfg st =
      match packGroupLoop cfg ls.length { st with links_dict := [(h, [])] } ls with
      | none => none
      | some st' =>
        if st'.links_dict.map Prod.fst = [h] then some st' else none := by
  unfold packLinks
  rw [hst]
  simp only [List.map_cons, List.map_nil]
  rw [packLinksAux]
  have hget : pyGet st.links_dict h = some ls := by rw [hst]; simp [pyGet]
  rw [hget]
  dsimp only
  rw [if_neg (by omega)]
  rw [hst]
  have haset : aset [(h, ls)] h [] = [(h, [])] := by simp [aset]
  rw [haset]
  cases hp : packGroupLoop cfg ls.length { st with links_dict := [(h, [])] } ls with
  | none => rfl
  | some stM =>
    dsimp only
    by_cases hk : stM.links_dict.map Prod.fst = [h]
    · rw [if_pos (by simpa using hk), if_pos hk]
      rw [packLinksAux]
    · rw [if_neg (by simpa using hk), if_neg hk]

/-- **C1** (confirmed).  Label merge rule: two directional links of one
group that pair on interface IDs, whose labels are each of the form
`"<pid>:<level>"`, merge into a single link whose label is the candidate's
`"<pid1>:<level1>"` when the pids coincide (in particular when the two
labels are identical the label is unchanged), and `"<pid1>-<pid2>:<level1>"`
when the pids differ — so labels `"100:L1"` and `"200:L1"` yield
`"100-200:L1"`.  The merged link's `trgt_label` comes from the partner's
`src_label`. -/
theorem c1_label_merge (cfg : Config) (st : IsisState) (l1 l2 : Link)
    (pid1 pid2 lvl1 lvl2 ia ib : String) (d1 d2 : Desc) (h : List String)
    (hst : st.links_dict = [(h, [l2, l1])])
    (hh1 : makeHashTuple l1 = h) (hh2 : makeHashTuple l2 = h)
    (hlab1 : l1.label = pid1 ++ ":" ++ lvl1) (hlab2 : l2.label = pid2 ++ ":" ++ lvl2)
    (hp1 : ':' ∉ pid1.data) (hv1 : ':' ∉ lvl1.data)
    (hp2 : ':' ∉ pid2.data) (hv2 : ':' ∉ lvl2.data)
    (h1L : l1.local_intf_id = PyOpt.val ia) (h1P : l1.peer_intf_id = PyOpt.val ib)
    (hia : ia ≠ "") (hib : ib ≠ "")
    (h1ip : l1.peer_ip ≠ PyOpt.absent) (h1ip2 : l1.local_ip ≠ PyOpt.absent)
    (h2P : l2.peer_intf_id = PyOpt.val ia) (h2L : l2.local_intf_id = PyOpt.val ib)
    (hd1 : l1.description = some d1) (hd2 : l2.description = some d2) :
    ∃ (st' : IsisState) (m : Link), packLinks cfg st = some st' ∧
      pyGet st'.links_dict h = some [m] ∧
      m.trgt_label = PyOpt.val l2.src_label ∧
      m.label = (if pid1 = pid2 then pid1 ++ ":" ++ lvl1
                 else pid1 ++ "-" ++ pid2 ++ ":" ++ lvl1) := by
  have hsingle := packLinks_single_group cfg st h [l2, l1] hst (by simp)
  have hlen2 : ([l2, l1] : List Link).length = 2 := rfl
  rw [hlen2] at hsingle
  have hloop : packGroupLoop cfg 2 { st with links_dict := [(h, [])] } [l2, l1] =
      packPair cfg { st with links_dict := [(h, [])] } (stripCorr l1) l2 :=
    packGroupLoop_pair cfg 1 _ l2 l1 ia ib h1L h1P hia hib h1ip h1ip2 h2P h2L
  rw [hloop] at hsingle
  have hcd : (stripCorr l1).description = some d1 := hd1
  by_cases hlabeq : (stripCorr l1).label = l2.label
  · obtain ⟨hpe, hle⟩ : pid1 = pid2 ∧ lvl1 = lvl2 :=
      label_pair_inj hp1 hv1 hp2 hv2 (by rw [← hlab1, ← hlab2]; exact hlabeq)
    rw [packPair_same_label cfg _ (stripCorr l1) l2 d1 d2 hcd hd2 hlabeq] at hsingle
    have hmk : makeHashTuple { stripCorr l1 with trgt_label := PyOpt.val l2.src_label } =
        h := by rw [← hh1]; rfl
    rw [addLinkMark_group_append cfg _ _ (pyDictMerge d1 d2) h [] rfl hmk (by simp)]
      at hsingle
    dsimp only at hsingle
    rw [if_pos (by simp)] at hsingle
    simp only [List.nil_append] at hsingle
    refine ⟨_,
      (if (!(pyDictMerge d1 d2).isEmpty) && cfg.add_data then
        { stripCorr l1 with
            trgt_label := PyOpt.val l2.src_label,
            description := some (pyDumps (pyDictMerge d1 d2)) }
      else { stripCorr l1 with trgt_label := PyOpt.val l2.src_label }),
      hsingle, by simp [pyGet], ?_, ?_⟩
    · by_cases hc : ((!(pyDictMerge d1 d2).isEmpty) && cfg.add_data) = true <;>
        simp [hc]
    · by_cases hc : ((!(pyDictMerge d1 d2).isEmpty) && cfg.add_data) = true <;>
        simp [hc, stripCorr, hlab1, hpe]
  · have hM : mergeLabels (stripCorr l1).label l2.label =
        some ((if pid1 = pid2 then pid1 else pid1 ++ "-" ++ pid2) ++ ":" ++ lvl1) := by
      have : (stripCorr l1).label = l1.label := rfl
      rw [this, hlab1, hlab2]
      exact mergeLabels_pair pid1 lvl1 pid2 lvl2 hp1 hv1 hp2 hv2
    have hmk : makeHashTuple
        { stripCorr l1 with
            trgt_label := PyOpt.val l2.src_label, description := some d1 } = h := by
      rw [← hh1]; rfl
    have hadd := addLinkMark_group_append cfg { st with links_dict := [(h, [])] }
      { stripCorr l1 with
          trgt_label := PyOpt.val l2.src_label, description := some d1 }
      (pyDictMerge d1 d2) h [] rfl hmk (by simp)
    have hmark : (addLinkMark cfg { st with links_dict := [(h, [])] }
        { stripCorr l1 with
            trgt_label := PyOpt.val l2.src_label, description := some d1 }
        (pyDictMerge d1 d2)).2 = some h := by rw [hadd]
    rw [packPair_diff_label cfg _ (stripCorr l1) l2 d1 d2 _ h hcd hd2 hlabeq hM hmark]
      at hsingle
    rw [hadd] at hsingle
    dsimp only at hsingle
    simp only [List.nil_append] at hsingle
    rw [setLabelLast_single] at hsingle
    rw [if_pos (by simp)] at hsingle
    refine ⟨_,
      { (if (!(pyDictMerge d1 d2).isEmpty) && cfg.add_data then
          { { stripCorr l1 with
                trgt_label := PyOpt.val l2.src_label, description := some d1 } with
              description := some (pyDumps (pyDictMerge d1 d2)) }
        else
          { stripCorr l1 with
              trgt_label := PyOpt.val l2.src_label, description := some d1 }) with
        label := (if pid1 = pid2 then pid1 else pid1 ++ "-" ++ pid2) ++ ":" ++ lvl1 },
      hsingle, by simp [pyGet], ?_, ?_⟩
    · by_cases hc : ((!(pyDictMerge d1 d2).isEmpty) && cfg.add_data) = true <;>
        simp [hc]
    · by_cases hpe : pid1 = pid2 <;>
        by_cases hc : ((!(pyDictMerge d1 d2).isEmpty) && cfg.add_data) = true <;>
        simp [hc, stripCorr, hpe]

/-- C1 witness candidate: label `"100:L1"` (pids differ from its partner;
being in one group with a different label forces the label to coincide with
a node id of the partner, which the sorted-triple group key permits). -/
def w1a : Link :=
  { source := "200:L1", target := "X", label := "100:L1", src_label := "a:1",
    local_intf_id := PyOpt.val "i1", peer_intf_id := PyOpt.val "i2",
    local_ip := PyOpt.pynone, peer_ip := PyOpt.pynone, description := some [("A", "d")] }

/-- C1 witness partner: label `"200:L1"`. -/
def w1b : Link :=
  { source := "100:L1", target := "X", label := "200:L1", src_label := "b:2",
    local_intf_id := PyOpt.val "i2", peer_intf_id := PyOpt.val "i1",
    local_ip := PyOpt.pynone, peer_ip := PyOpt.pynone, description := some [("B", "e")] }

/-- C1 witness state: both links share one group. -/
def w1st : IsisState := { links_dict := [(makeHashTuple w1a, [w1b, w1a])] }

/-- Witness for C1: labels `"100:L1"` and `"200:L1"` merge to
`"100-200:L1"`. -/
theorem c1_label_merge_witness :
    ∃ (st' : IsisState) (m : Link), packLinks {} w1st = some st' ∧
      pyGet st'.links_dict (makeHashTuple w1a) = some [m] ∧
      m.trgt_label = PyOpt.val w1b.src_label ∧
      m.label = (if "100" = "200" then "100" ++ ":" ++ "L1"
                 else "100" ++ "-" ++ "200" ++ ":" ++ "L1") :=
  c1_label_merge {} w1st w1a w1b "100" "200" "L1" "L1" "i1" "i2" [("A", "d")] [("B", "e")]
    (makeHashTuple w1a) rfl rfl (by decide) (by decide) (by decide) (by decide)
    (by decide) (by decide) (by decide) rfl rfl (by decide) (by decide) (by decide)
    (by decide) rfl rfl rfl rfl

/-! ## C7: correlation fields in the packed result -/

/-- All four correlation keys are missing from the link dict. -/
def corrAbsent (l : Link) : Prop :=
  l.local_intf_id = PyOpt.absent ∧ l.peer_intf_id = PyOpt.absent ∧
  l.local_ip = PyOpt.absent ∧ l.peer_ip = PyOpt.absent

theorem stripCorr_corrAbsent (l : Link) : corrAbsent (stripCorr l) := ⟨rfl, rfl, rfl, rfl⟩

/-- Every link currently stored under group key `g` lacks the four keys. -/
def groupCorrFree (g : List String) (d : List (List String × List Link)) : Prop :=
  ∀ l ∈ (pyGet d g).getD [], corrAbsent l

theorem mem_of_getLast?_eq {α : Type} {ls : List α} {e : α} (he : ls.getLast? = some e) :
    e ∈ ls := by
  obtain ⟨hne, hx⟩ := List.mem_getLast?_eq_getLast (show e ∈ ls.getLast? from he)
  rw [hx]
  exact List.getLast_mem hne

theorem pyGet_append {κ α : Type} [DecidableEq κ] (d1 d2 : List (κ × α)) (k : κ) :
    pyGet (d1 ++ d2) k =
      match pyGet d1 k with
      | some v => some v
      | none => pyGet d2 k := by
  induction d1 with
  | nil => simp [pyGet]
  | cons p t ih =>
    by_cases hp : p.1 = k
    · simp [pyGet, hp]
    · simp [pyGet, hp, ih]

theorem pyGet_pySetdefault_getD (d : List (List String × List Link)) (h g : List String) :
    (pyGet (pySetdefault d h ([] : List Link)) g).getD [] = (pyGet d g).getD [] := by
  unfold pySetdefault
  by_cases hp : (pyGet d h).isSome
  · rw [if_pos hp]
  · rw [if_neg hp, pyGet_append]
    cases hq : pyGet d g with
    | some ls => rfl
    | none =>
      dsimp only
      by_cases hg : h = g
      · subst hg; simp [pyGet]
      · simp [pyGet, hg]

theorem addLinkMark_groupCorrFree (cfg : Config) (st : IsisState) (link : Link) (ld : Desc)
    (g : List String) (hl : corrAbsent link) (hinv : groupCorrFree g st.links_dict) :
    groupCorrFree g (addLinkMark cfg st link ld).1.links_dict := by
  unfold addLinkMark
  dsimp only
  by_cases hmem : link ∈ (pyGet (pySetdefault st.links_dict (makeHashTuple link) [])
      (makeHashTuple link)).getD []
  · rw [if_pos hmem]
    intro l hlmem
    rw [pyGet_pySetdefault_getD] at hlmem
    exact hinv l hlmem
  · rw [if_neg hmem]
    intro l hlmem
    dsimp only at hlmem
    by_cases hg : makeHashTuple link = g
    · rw [hg, pyGet_aset_same] at hlmem
      simp only [Option.getD_some, List.mem_append] at hlmem
      rcases hlmem with hlmem | hlmem
      · rw [← hg, pyGet_pySetdefault_getD, hg] at hlmem
        exact hinv l hlmem
      · simp only [List.mem_singleton] at hlmem
        subst hlmem
        by_cases hc : ((!ld.isEmpty) && cfg.add_data) = true
        · rw [if_pos hc]
          exact hl
        · rw [if_neg hc]
          exact hl
    · rw [pyGet_aset_ne _ _ _ _ (fun hh => hg hh.symm), pyGet_pySetdefault_getD] at hlmem
      exact hinv l hlmem

theorem setLabelLast_groupCorrFree (d : List (List String × List Link)) (h : List String)
    (lab : String) (g : List String) (hinv : groupCorrFree g d) :
    groupCorrFree g (setLabelLast d h lab) := by
  unfold setLabelLast
  split
  · exact hinv
  case _ ls hls =>
    split
    · exact hinv
    case _ e he =>
      intro l hl
      by_cases hg : h = g
      · subst hg
        rw [pyGet_aset_same] at hl
        simp only [Option.getD_some, List.mem_append] at hl
        rcases hl with hl | hl
        · exact hinv l (by rw [hls]; exact List.dropLast_subset _ hl)
        · simp only [List.mem_singleton] at hl
          subst hl
          exact hinv e (by rw [hls]; exact mem_of_getLast?_eq he)
      · rw [pyGet_aset_ne _ _ _ _ (fun hh => hg hh.symm)] at hl
        exact hinv l hl

theorem packPair_groupCorrFree (cfg : Config) (st : IsisState) (cand l2 : Link)
    (st' : IsisState) (g : List String) (h : packPair cfg st cand l2 = some st')
    (hc : corrAbsent cand) (hinv : groupCorrFree g st.links_dict) :
    groupCorrFree g st'.links_dict := by
  unfold packPair at h
  dsimp only at h
  split at h
  · split at h
    · injection h with h
      rw [← h]
      exact addLinkMark_groupCorrFree _ _ _ _ _ hc hinv
    · split at h
      · cases h
      · split at h
        · injection h with h
          rw [← h]
          exact addLinkMark_groupCorrFree _ _ _ _ _ hc hinv
        · injection h with h
          rw [← h]
          exact setLabelLast_groupCorrFree _ _ _ _
            (addLinkMark_groupCorrFree _ _ _ _ _ hc hinv)
  · cases h

theorem packGroupLoop_groupCorrFree (cfg : Config) :
    ∀ (fuel : Nat) (st : IsisState) (pool : List Link) (st' : IsisState) (g : List String),
      packGroupLoop cfg fuel st pool = some st' →
      groupCorrFree g st.links_dict → groupCorrFree g st'.links_dict
  | fuel, st, [], st', g, h, hinv => by
    cases fuel <;> (injection h with h; rw [← h]; exact hinv)
  | 0, st, p :: ps, st', g, h, hinv => by
    simp [packGroupLoop] at h
  | fuel + 1, st, p :: ps, st', g, h, hinv => by
    unfold packGroupLoop at h
    dsimp only at h
    split at h
    case _ lid pid pip lip _ =>
      split at h
      · split at h
        · cases h
        · exact packGroupLoop_groupCorrFree cfg fuel _ _ _ _ h
            (addLinkMark_groupCorrFree _ _ _ _ _ (stripCorr_corrAbsent _) hinv)
        · split at h
          · cases h
          case _ stM hM =>
            exact packGroupLoop_groupCorrFree cfg fuel _ _ _ _ h
              (packPair_groupCorrFree _ _ _ _ _ _ hM (stripCorr_corrAbsent _) hinv)
      · split at h
        · split at h
          · cases h
          · exact packGroupLoop_groupCorrFree cfg fuel _ _ _ _ h
              (addLinkMark_groupCorrFree _ _ _ _ _ (stripCorr_corrAbsent _) hinv)
          · split at h
            · cases h
            case _ stM hM =>
              exact packGroupLoop_groupCorrFree cfg fuel _ _ _ _ h
                (packPair_groupCorrFree _ _ _ _ _ _ hM (stripCorr_corrAbsent _) hinv)
        · exact packGroupLoop_groupCorrFree cfg fuel _ _ _ _ h
            (addLinkMark_groupCorrFree _ _ _ _ _ (stripCorr_corrAbsent _) hinv)
    · cases h

theorem addLinkMark_glen (cfg : Config) (st : IsisState) (link : Link) (ld : Desc)
    (g : List String) :
    ((pyGet st.links_dict g).getD []).length ≤
      ((pyGet (addLinkMark cfg st link ld).1.links_dict g).getD []).length := by
  unfold addLinkMark
  dsimp only
  by_cases hmem : link ∈ (pyGet (pySetdefault st.links_dict (makeHashTuple link) [])
      (makeHashTuple link)).getD []
  · rw [if_pos hmem]
    dsimp only
    rw [pyGet_pySetdefault_getD]
  · rw [if_neg hmem]
    dsimp only
    by_cases hg : makeHashTuple link = g
    · rw [hg, pyGet_aset_same]
      simp only [Option.getD_some, List.length_append]
      rw [← hg, pyGet_pySetdefault_getD, hg]
      omega
    · rw [pyGet_aset_ne _ _ _ _ (fun hh => hg hh.symm), pyGet_pySetdefault_getD]

theorem setLabelLast_glen (d : List (List String × List Link)) (h : List String)
    (lab : String) (g : List String) :
    ((pyGet (setLabelLast d h lab) g).getD []).length = ((pyGet d g).getD []).length := by
  unfold setLabelLast
  split
  · rfl
  case _ ls hls =>
    split
    · rfl
    case _ e he =>
      by_cases hg : h = g
      · subst hg
        rw [pyGet_aset_same, hls]
        simp only [Option.getD_some, List.length_append, List.length_dropLast,
          List.length_singleton]
        have hne : ls ≠ [] := by
          intro hnil
          rw [hnil] at he
          simp at he
        have : 1 ≤ ls.length := by
          cases ls with
          | nil => exact absurd rfl hne
          | cons a t => simp
        omega
      · rw [pyGet_aset_ne _ _ _ _ (fun hh => hg hh.symm)]

theorem packPair_glen (cfg : Config) (st : IsisState) (cand l2 : Link) (st' : IsisState)
    (g : List String) (h : packPair cfg st cand l2 = some st') :
    ((pyGet st.links_dict g).getD []).length ≤ ((pyGet st'.links_dict g).getD []).length := by
  unfold packPair at h
  dsimp only at h
  split at h
  · split at h
    · injection h with h
      rw [← h]
      exact addLinkMark_glen _ _ _ _ _
    · split at h
      · cases h
      · split at h
        · injection h with h
          rw [← h]
          exact addLinkMark_glen _ _ _ _ _
        · injection h with h
          rw [← h]
          dsimp only
          rw [setLabelLast_glen]
          exact addLinkMark_glen _ _ _ _ _
  · cases h

theorem packGroupLoop_glen (cfg : Config) :
    ∀ (fuel : Nat) (st : IsisState) (pool : List Link) (st' : IsisState) (g : List String),
      packGroupLoop cfg fuel st pool = some st' →
      ((pyGet st.links_dict g).getD []).length ≤ ((pyGet st'.links_dict g).getD []).length
  | fuel, st, [], st', g, h => by
    cases fuel <;> (injection h with h; rw [← h])
  | 0, st, p :: ps, st', g, h => by
    simp [packGroupLoop] at h
  | fuel + 1, st, p :: ps, st', g, h => by
    unfold packGroupLoop at h
    dsimp only at h
    split at h
    case _ lid pid pip lip _ =>
      split at h
      · split at h
        · cases h
        · exact le_trans (addLinkMark_glen _ _ _ _ _)
            (packGroupLoop_glen cfg fuel _ _ _ _ h)
        · split at h
          · cases h
          case _ stM hM =>
            exact le_trans (packPair_glen _ _ _ _ _ _ hM)
              (packGroupLoop_glen cfg fuel _ _ _ _ h)
      · split at h
        · split at h
          · cases h
          · exact le_trans (addLinkMark_glen _ _ _ _ _)
              (packGroupLoop_glen cfg fuel _ _ _ _ h)
          · split at h
            · cases h
            case _ stM hM =>
              exact le_trans (packPair_glen _ _ _ _ _ _ hM)
                (packGroupLoop_glen cfg fuel _ _ _ _ h)
        · exact le_trans (addLinkMark_glen _ _ _ _ _)
            (packGroupLoop_glen cfg fuel _ _ _ _ h)
    · cases h

theorem groupCorrFree_reset (d : List (List String × List Link)) (k g : List String)
    (hinv : groupCorrFree g d) : groupCorrFree g (aset d k []) := by
  intro l hl
  by_cases hg : k = g
  · subst hg
    rw [pyGet_aset_same] at hl
    simp at hl
  · rw [pyGet_aset_ne _ _ _ _ (fun hh => hg hh.symm)] at hl
    exact hinv l hl

theorem packLinksAux_groupCorrFree (cfg : Config) :
    ∀ (keys : List (List String)) (st st' : IsisState) (g : List String),
      packLinksAux cfg keys st = some st' →
      groupCorrFree g st.links_dict → groupCorrFree g st'.links_dict
  | [], st, st', g, h, hinv => by
    injection h with h
    rw [← h]
    exact hinv
  | k :: ks, st, st', g, h, hinv => by
    unfold packLinksAux at h
    split at h
    · cases h
    case _ links _ =>
      split at h
      · exact packLinksAux_groupCorrFree cfg ks _ _ _ h hinv
      · dsimp only at h
        split at h
        · cases h
        case _ stM hM =>
          split at h
          · refine packLinksAux_groupCorrFree cfg ks _ _ _ h ?_
            exact packGroupLoop_groupCorrFree cfg _ _ _ _ _ hM
              (groupCorrFree_reset _ _ _ hinv)
          · cases h

theorem packLinksAux_corr (cfg : Config) :
    ∀ (keys : List (List String)) (st st' : IsisState) (g : List String),
      packLinksAux cfg keys st = some st' → g ∈ keys →
      2 ≤ ((pyGet st.links_dict g).getD []).length →
      groupCorrFree g st'.links_dict
  | [], st, st', g, h, hmem, hlen => by simp at hmem
  | k :: ks, st, st', g, h, hmem, hlen => by
    unfold packLinksAux at h
    split at h
    · cases h
    case _ links hlinks =>
      split at h
      case _ hle =>
        by_cases hg : g = k
        · subst hg
          rw [hlinks] at hlen
          simp only [Option.getD_some] at hlen
          omega
        · rcases List.mem_cons.mp hmem with hgk | hgk
          · exact absurd hgk hg
          · exact packLinksAux_corr cfg ks _ _ _ h hgk hlen
      case _ hle =>
        dsimp only at h
        split at h
        · cases h
        case _ stM hM =>
          split at h
          case _ hkeys =>
            by_cases hg : g = k
            · subst hg
              refine packLinksAux_groupCorrFree cfg ks _ _ _ h ?_
              refine packGroupLoop_groupCorrFree cfg _ _ _ _ _ hM ?_
              intro l hl
              rw [pyGet_aset_same] at hl
              simp at hl
            · rcases List.mem_cons.mp hmem with hgk | hgk
              · exact absurd hgk hg
              · refine packLinksAux_corr cfg ks _ _ _ h hgk ?_
                refine le_trans ?_ (packGroupLoop_glen cfg _ _ _ _ _ hM)
                dsimp only
                rw [pyGet_aset_ne st.links_dict k g [] hg]
                exact hlen
          · cases h

/-- **C7 amended** (the claim as corrected).  For every group that held at
least two directional links before `_pack_links` ran, every link of that
group in the packed result has all four correlation keys
(`local_intf_id`, `peer_intf_id`, `local_ip`, `peer_ip`) removed — each
stored link is an ex-candidate whose keys were popped.  (Single-entry
groups are skipped by the `len(links) <= 1` guard and keep the keys; see
the counterexample.) -/
theorem c7_fields_removed (cfg : Config) (st st' : IsisState)
    (h : packLinks cfg st = some st') (g : List String) (ls : List Link)
    (hg : pyGet st.links_dict g = some ls) (hlen : 2 ≤ ls.length)
    (ls' : List Link) (hg' : pyGet st'.links_dict g = some ls') :
    ∀ l ∈ ls', l.local_intf_id = PyOpt.absent ∧ l.peer_intf_id = PyOpt.absent ∧
      l.local_ip = PyOpt.absent ∧ l.peer_ip = PyOpt.absent := by
  have hmem : g ∈ st.links_dict.map Prod.fst :=
    mem_fst_of_pyGet_isSome _ _ (by simp [hg])
  have hcf := packLinksAux_corr cfg _ st st' g h hmem (by rw [hg]; simpa using hlen)
  intro l hl
  exact hcf l (by rw [hg']; exact hl)

/-- Counterexample link for C7: a single-entry group. -/
def w7link : Link :=
  { source := "R1", target := "R2", label := "1:L1", src_label := "Gi1:10",
    local_intf_id := PyOpt.val "Gi1", peer_intf_id := PyOpt.val "Gi2",
    local_ip := PyOpt.pynone, peer_ip := PyOpt.pynone }

/-- Counterexample state for C7. -/
def w7state : IsisState := { links_dict := [(makeHashTuple w7link, [w7link])] }

/-- Counterexample to **C7** as stated: a group holding exactly one
directional link is skipped by `_pack_links` (`len(links) <= 1`), so its
link still carries all four correlation keys after packing — they do reach
`_update_drawing`'s payload. -/
theorem c7_counterexample :
    packLinks {} w7state = some w7state ∧
    pyGet w7state.links_dict (makeHashTuple w7link) = some [w7link] ∧
    w7link.local_intf_id ≠ PyOpt.absent ∧ w7link.peer_intf_id ≠ PyOpt.absent ∧
    w7link.local_ip ≠ PyOpt.absent ∧ w7link.peer_ip ≠ PyOpt.absent := by
  refine ⟨by decide, by decide, by decide, by decide, by decide, by decide⟩

/-- Unpairable two-link group for the C7 witness (falsy correlation
values: `None` interface IDs and IPs). -/
def w7a : Link :=
  { source := "R1", target := "R2", label := "1:L1", src_label := "a:1",
    local_intf_id := PyOpt.pynone, peer_intf_id := PyOpt.pynone,
    local_ip := PyOpt.pynone, peer_ip := PyOpt.pynone }

/-- Second link of the C7 witness group. -/
def w7b : Link :=
  { source := "R2", target := "R1", label := "1:L1", src_label := "b:2",
    local_intf_id := PyOpt.pynone, peer_intf_id := PyOpt.pynone,
    local_ip := PyOpt.pynone, peer_ip := PyOpt.pynone }

/-- C7 witness state: one group with the two unpairable links. -/
def w7st2 : IsisState := { links_dict := [(makeHashTuple w7a, [w7a, w7b])] }

/-- C7 witness packed state: both links re-added with the keys popped. -/
def w7packed : IsisState :=
  { links_dict := [(makeHashTuple w7a, [stripCorr w7b, stripCorr w7a])] }

/-- Witness for the amended C7 at a concrete processed group. -/
theorem c7_fields_removed_witness :
    (stripCorr w7b).local_intf_id = PyOpt.absent ∧
    (stripCorr w7b).peer_intf_id = PyOpt.absent ∧
    (stripCorr w7b).local_ip = PyOpt.absent ∧
    (stripCorr w7b).peer_ip = PyOpt.absent :=
  c7_fields_removed {} w7st2 w7packed (by decide) (makeHashTuple w7a) [w7a, w7b]
    (by decide) (by decide) [stripCorr w7b, stripCorr w7a] (by decide)
    (stripCorr w7b) (by decide)

/-! ## C2 machinery: locality of group processing -/

theorem lastOf_mem : ∀ (p : Link) (ps : List Link), lastOf p ps ∈ p :: ps
  | _, [] => List.mem_singleton.mpr rfl
  | p, q :: qs => List.mem_cons_of_mem p (lastOf_mem q qs)

theorem initOf_subset : ∀ (p : Link) (ps : List Link), initOf p ps ⊆ p :: ps
  | _, [] => by simp [initOf]
  | p, q :: qs => by
    simp only [initOf, List.cons_subset, List.mem_cons, true_or, true_and]
    exact (initOf_subset q qs).trans (List.subset_cons_self _ _)

theorem pyGet_pySetdefault_ne (d : List (List String × List Link)) (h g : List String)
    (hne : g ≠ h) : pyGet (pySetdefault d h ([] : List Link)) g = pyGet d g := by
  unfold pySetdefault
  by_cases hp : (pyGet d h).isSome
  · rw [if_pos hp]
  · rw [if_neg hp, pyGet_append]
    cases hq : pyGet d g with
    | some ls => rfl
    | none =>
      dsimp only
      simp [pyGet, Ne.symm hne]

theorem addLinkMark_local (cfg : Config) (st : IsisState) (link : Link) (ld : Desc)
    (g : List String) (hne : g ≠ makeHashTuple link) :
    pyGet (addLinkMark cfg st link ld).1.links_dict g = pyGet st.links_dict g := by
  unfold addLinkMark
  dsimp only
  by_cases hmem : link ∈ (pyGet (pySetdefault st.links_dict (makeHashTuple link) [])
      (makeHashTuple link)).getD []
  · rw [if_pos hmem]
    exact pyGet_pySetdefault_ne _ _ _ hne
  · rw [if_neg hmem]
    dsimp only
    rw [pyGet_aset_ne _ _ _ _ hne, pyGet_pySetdefault_ne _ _ _ hne]

theorem addLinkMark_snd (cfg : Config) (st : IsisState) (link : Link) (ld : Desc)
    (hk : List String) (h : (addLinkMark cfg st link ld).2 = some hk) :
    hk = makeHashTuple link := by
  unfold addLinkMark at h
  dsimp only at h
  by_cases hmem : link ∈ (pyGet (pySetdefault st.links_dict (makeHashTuple link) [])
      (makeHashTuple link)).getD []
  · rw [if_pos hmem] at h
    cases h
  · rw [if_neg hmem] at h
    dsimp only at h
    injection h with h
    exact h.symm

theorem setLabelLast_local (d : List (List String × List Link)) (h : List String)
    (lab : String) (g : List String) (hne : g ≠ h) :
    pyGet (setLabelLast d h lab) g = pyGet d g := by
  unfold setLabelLast
  split
  · rfl
  · split
    · rfl
    · exact pyGet_aset_ne _ _ _ _ hne

theorem packPair_local (cfg : Config) (st : IsisState) (cand l2 : Link) (st' : IsisState)
    (g : List String) (hp : packPair cfg st cand l2 = some st')
    (hne : g ≠ makeHashTuple cand) :
    pyGet st'.links_dict g = pyGet st.links_dict g := by
  unfold packPair at hp
  dsimp only at hp
  split at hp
  · split at hp
    · injection hp with hp
      rw [← hp]
      exact addLinkMark_local cfg st _ _ g hne
    · split at hp
      · cases hp
      · split at hp
        · injection hp with hp
          rw [← hp]
          exact addLinkMark_local cfg st _ _ g hne
        case _ hk hmark =>
          injection hp with hp
          rw [← hp]
          dsimp only
          have hkh := addLinkMark_snd _ _ _ _ _ hmark
          rw [setLabelLast_local _ _ _ _ (by rw [hkh]; exact hne)]
          exact addLinkMark_local cfg st _ _ g hne
  · cases hp

theorem packGroupLoop_local (cfg : Config) :
    ∀ (fuel : Nat) (st : IsisState) (pool : List Link) (st' : IsisState) (g : List String),
      packGroupLoop cfg fuel st pool = some st' →
      (∀ l ∈ pool, g ≠ makeHashTuple l) →
      pyGet st'.links_dict g = pyGet st.links_dict g
  | fuel, st, [], st', g, h, _ => by
    cases fuel <;> (injection h with h; rw [← h])
  | 0, st, p :: ps, st', g, h, _ => by
    simp [packGroupLoop] at h
  | fuel + 1, st, p :: ps, st', g, h, hpool => by
    have hcand : g ≠ makeHashTuple (stripCorr (lastOf p ps)) := by
      rw [stripCorr_hash]
      exact hpool _ (lastOf_mem p ps)
    have hrest : ∀ l ∈ initOf p ps, g ≠ makeHashTuple l :=
      fun l hl => hpool l (initOf_subset p ps hl)
    unfold packGroupLoop at h
    dsimp only at h
    split at h
    case _ lid pid pip lip _ =>
      split at h
      · split at h
        · cases h
        · rw [packGroupLoop_local cfg fuel _ _ _ _ h hrest]
          exact addLinkMark_local cfg st _ _ g hcand
        · split at h
          · cases h
          case _ stM hM =>
            rw [packGroupLoop_local cfg fuel _ _ _ _ h
                (fun l hl => hrest l (List.erase_subset _ _ hl)),
              packPair_local cfg st _ _ _ _ hM hcand]
      · split at h
        · split at h
          · cases h
          · rw [packGroupLoop_local cfg fuel _ _ _ _ h hrest]
            exact addLinkMark_local cfg st _ _ g hcand
          · split at h
            · cases h
            case _ stM hM =>
              rw [packGroupLoop_local cfg fuel _ _ _ _ h
                  (fun l hl => hrest l (List.erase_subset _ _ hl)),
                packPair_local cfg st _ _ _ _ hM hcand]
        · rw [packGroupLoop_local cfg fuel _ _ _ _ h hrest]
          exact addLinkMark_local cfg st _ _ g hcand
    · cases h

theorem pyGet_mem {κ α : Type} [DecidableEq κ] (d : List (κ × α)) (k : κ) (v : α)
    (h : pyGet d k = some v) : (k, v) ∈ d := by
  induction d with
  | nil => simp [pyGet] at h
  | cons p t ih =>
    by_cases hp : p.1 = k
    · rw [pyGet, if_pos hp] at h
      injection h with h
      exact List.mem_cons.mpr (Or.inl (by rw [← hp, ← h]))
    · rw [pyGet, if_neg hp] at h
      exact List.mem_cons_of_mem _ (ih h)

theorem packLinksAux_singleton (cfg : Config) :
    ∀ (keys : List (List String)) (st st' : IsisState) (g : List String) (l : Link),
      packLinksAux cfg keys st = some st' →
      keys.Nodup →
      (∀ k ∈ keys, ∀ ls, pyGet st.links_dict k = some ls →
        ∀ x ∈ ls, makeHashTuple x = k) →
      pyGet st.links_dict g = some [l] →
      pyGet st'.links_dict g = some [l]
  | [], st, st', g, l, h, _, _, hgl => by
    injection h with h
    rw [← h]
    exact hgl
  | k :: ks, st, st', g, l, h, hnd, hWF, hgl => by
    unfold packLinksAux at h
    split at h
    · cases h
    case _ links hlinks =>
      split at h
      · exact packLinksAux_singleton cfg ks _ _ _ _ h (List.Nodup.of_cons hnd)
          (fun k' hk' => hWF k' (List.mem_cons_of_mem _ hk')) hgl
      case _ hle =>
        have hgk : g ≠ k := by
          intro heq
          rw [heq, hlinks] at hgl
          injection hgl with hgl
          rw [hgl] at hle
          simp at hle
        have hpool : ∀ x ∈ links, makeHashTuple x = k :=
          hWF k (List.mem_cons_self _ _) links hlinks
        dsimp only at h
        split at h
        · cases h
        case _ stM hM =>
          split at h
          · have hMg : ∀ g', g' ≠ k → pyGet stM.links_dict g' = pyGet st.links_dict g' := by
              intro g' hg'
              rw [packGroupLoop_local cfg links.length _ links stM g' hM
                  (fun x hx => by rw [hpool x hx]; exact hg'),
                pyGet_aset_ne _ _ _ _ hg']
            refine packLinksAux_singleton cfg ks _ _ _ _ h (List.Nodup.of_cons hnd)
              ?_ (by rw [hMg g hgk]; exact hgl)
            intro k' hk' ls hls x hx
            have hk'k : k' ≠ k := by
              intro heq
              rw [heq] at hk'
              exact (List.nodup_cons.mp hnd).1 hk'
            rw [hMg k' hk'k] at hls
            exact hWF k' (List.mem_cons_of_mem _ hk') ls hls x hx
          · cases h

/-! ## C2: group sizes produced by the Link Packer -/

/-- `link_2` is a valid interface-ID correlation partner for candidate `x`
(the `link_2["peer_intf_id"] == local_intf_id and link_2["local_intf_id"]
== peer_intf_id` test of `_pack_links`). -/
@[reducible] def intfPaired (x y : Link) : Prop :=
  y.peer_intf_id = x.local_intf_id ∧ y.local_intf_id = x.peer_intf_id

/-- A directional link whose interface IDs are both present and truthy,
whose IPs are present (no `KeyError` on `pop`), whose `trgt_label` is not
yet set and whose description parses. -/
def IntfShape (x : Link) (la pb : String) : Prop :=
  x.local_intf_id = PyOpt.val la ∧ x.peer_intf_id = PyOpt.val pb ∧
  la ≠ "" ∧ pb ≠ "" ∧ x.peer_ip ≠ PyOpt.absent ∧ x.local_ip ≠ PyOpt.absent ∧
  x.trgt_label = PyOpt.absent ∧ (∃ d, x.description = some d)

/-- State whose `links_dict` holds the single group `h ↦ ls` on top of `st`'s
other attributes (the canonical shape of the single-group packing states). -/
def withGroup (st : IsisState) (h : List String) (ls : List Link) : IsisState :=
  { st with links_dict := [(h, ls)] }

/-- The merged link `_pack_links` stores for a candidate/partner pair with
equal labels: `trgt_label` from the partner, description merged when
`add_data` is set and the merge is non-empty. -/
def packedMerge (cfg : Config) (cand l2 : Link) (d1 d2 : Desc) : Link :=
  if (!(pyDictMerge d1 d2).isEmpty) && cfg.add_data then
    { cand with trgt_label := PyOpt.val l2.src_label,
                description := some (pyDumps (pyDictMerge d1 d2)) }
  else { cand with trgt_label := PyOpt.val l2.src_label }

theorem packedMerge_trgt (cfg : Config) (cand l2 : Link) (d1 d2 : Desc) :
    (packedMerge cfg cand l2 d1 d2).trgt_label = PyOpt.val l2.src_label := by
  unfold packedMerge
  split <;> rfl

theorem packedMerge_trgt_ne (cfg : Config) (cand l2 : Link) (d1 d2 : Desc)
    (x : Link) (hx : x.trgt_label = PyOpt.absent) :
    x.trgt_label ≠ (packedMerge cfg cand l2 d1 d2).trgt_label := by
  rw [hx, packedMerge_trgt]
  exact fun q => PyOpt.noConfusion q

theorem notin_singleton_of_trgt_ne (m x : Link) (hne : m.trgt_label ≠ x.trgt_label) :
    m ∉ [x] := by
  intro hmem
  rw [List.mem_singleton] at hmem
  exact hne (congrArg Link.trgt_label hmem)

theorem addLinkMark_withGroup (cfg : Config) (st : IsisState) (h : List String)
    (g : List Link) (link : Link) (ld : Desc)
    (hh : makeHashTuple link = h) (hmem : link ∉ g) :
    addLinkMark cfg (withGroup st h g) link ld =
      (withGroup st h (g ++ [if (!ld.isEmpty) && cfg.add_data then
        { link with description := some (pyDumps ld) } else link]), some h) := by
  rw [addLinkMark_group_append cfg (withGroup st h g) link ld h g rfl hh hmem]
  rfl

theorem addLink_empty_withGroup (cfg : Config) (st : IsisState) (h : List String)
    (g : List Link) (link : Link) (hh : makeHashTuple link = h) (hmem : link ∉ g) :
    addLink cfg (withGroup st h g) link [] = withGroup st h (g ++ [link]) := by
  unfold addLink
  rw [addLinkMark_withGroup cfg st h g link [] hh hmem]
  dsimp only
  rw [if_neg (by simp)]

/-- One loop iteration on a three-link pool: the candidate is the last
element (`links.pop()`), its interface IDs are truthy, so the intf-ID
correlation branch scans the remaining two links. -/
theorem packGroupLoop_step3 (cfg : Config) (fuel : Nat) (st : IsisState)
    (x y z : Link) (ia ib : String)
    (hzL : z.local_intf_id = PyOpt.val ia) (hzP : z.peer_intf_id = PyOpt.val ib)
    (hia : ia ≠ "") (hib : ib ≠ "")
    (hzip : z.peer_ip ≠ PyOpt.absent) (hzip2 : z.local_ip ≠ PyOpt.absent) :
    packGroupLoop cfg (fuel + 1) st [x, y, z] =
      match scanIntf [x, y] (PyOpt.val ia) (PyOpt.val ib) with
      | none => none
      | some none => packGroupLoop cfg fuel (addLink cfg st (stripCorr z) []) [x, y]
      | some (some l2) =>
        match packPair cfg st (stripCorr z) l2 with
        | none => none
        | some st' => packGroupLoop cfg fuel st' ([x, y].erase l2) := by
  conv_lhs => rw [packGroupLoop]
  simp only [lastOf, initOf]
  rw [hzL, hzP, pyKey_of_ne_absent hzip, pyKey_of_ne_absent hzip2]
  dsimp only [pyKey]
  rw [truthy_val hia, truthy_val hib]
  simp only [Bool.and_self, if_true]

/-- **C2**: (a) a group holding exactly one directional link is left
untouched by `_pack_links` (for any instance whose `links_dict` keys are
distinct and store links under their own hash, as every state the plugin
builds does); (b) a three-link group in which exactly one unordered pair
correlates on interface IDs packs to exactly two entries: one merged link
whose `trgt_label` is the partner's `src_label`, and one link that is just
one of the originals with the four correlation keys popped, its
`trgt_label` still unset — never three entries and never one. -/
theorem c2_pack_sizes :
    (∀ (cfg : Config) (st st' : IsisState) (g : List String) (l : Link),
      (st.links_dict.map Prod.fst).Nodup →
      (∀ p ∈ st.links_dict, ∀ x ∈ p.2, makeHashTuple x = p.1) →
      packLinks cfg st = some st' →
      pyGet st.links_dict g = some [l] →
      pyGet st'.links_dict g = some [l]) ∧
    (∀ (cfg : Config) (st : IsisState) (a b c : Link) (h : List String)
      (aL aP bL bP cL cP : String),
      st.links_dict = [(h, [a, b, c])] →
      makeHashTuple a = h → makeHashTuple b = h → makeHashTuple c = h →
      IntfShape a aL aP → IntfShape b bL bP → IntfShape c cL cP →
      a.label = b.label → b.label = c.label →
      ((intfPaired a b ∧ ¬intfPaired c a ∧ ¬intfPaired c b) ∨
       (intfPaired c a ∧ ¬intfPaired a b ∧ ¬intfPaired c b) ∨
       (intfPaired c b ∧ ¬intfPaired c a ∧ ¬intfPaired a b)) →
      ∃ (st' : IsisState) (m u : Link),
        packLinks cfg st = some st' ∧
        (pyGet st'.links_dict h = some [m, u] ∨ pyGet st'.links_dict h = some [u, m]) ∧
        (∃ q, (q = a ∨ q = b ∨ q = c) ∧ m.trgt_label = PyOpt.val q.src_label) ∧
        u.trgt_label = PyOpt.absent ∧
        (∃ r, (r = a ∨ r = b ∨ r = c) ∧ u = stripCorr r)) := by
  constructor
  · intro cfg st st' g l hnd hWF hpack hgl
    unfold packLinks at hpack
    exact packLinksAux_singleton cfg (st.links_dict.map Prod.fst) st st' g l hpack hnd
      (fun k _ ls hls x hx => hWF (k, ls) (pyGet_mem _ _ _ hls) x hx) hgl
  · intro cfg st a b c h aL aP bL bP cL cP hst hha hhb hhc hA hB hC hab hbc hcase
    obtain ⟨haL, haP, haLne, haPne, haip, haip2, haT, da, hda⟩ := hA
    obtain ⟨hbL, hbP, hbLne, hbPne, hbip, hbip2, hbT, db, hdb⟩ := hB
    obtain ⟨hcL, hcP, hcLne, hcPne, hcT2, hcip2, hcT, dc, hdc⟩ := hC
    have hl3 : ([a, b, c] : List Link).length = 1 + 1 + 1 := rfl
    rcases hcase with ⟨hpab, hnca, hncb⟩ | ⟨hpca, hnab, hncb⟩ | ⟨hpcb, hnca, hnab⟩
    · -- pair (a, b); candidate c finds no partner, is re-added stripped,
      -- then candidate b pairs with a
      have hscan : scanIntf [a, b] (PyOpt.val cL) (PyOpt.val cP) = some none := by
        rw [scanIntf_skip [b] a (PyOpt.val cL) (PyOpt.val cP)
            (by rw [haP]; exact fun q => PyOpt.noConfusion q)
            (by rw [haL]; exact fun q => PyOpt.noConfusion q)
            (fun hq => hnca ⟨hq.1.trans hcL.symm, hq.2.trans hcP.symm⟩),
          scanIntf_skip [] b (PyOpt.val cL) (PyOpt.val cP)
            (by rw [hbP]; exact fun q => PyOpt.noConfusion q)
            (by rw [hbL]; exact fun q => PyOpt.noConfusion q)
            (fun hq => hncb ⟨hq.1.trans hcL.symm, hq.2.trans hcP.symm⟩)]
        rfl
      have e1 : packGroupLoop cfg (1 + 1 + 1) (withGroup st h []) [a, b, c]
          = packGroupLoop cfg (1 + 1) (withGroup st h [stripCorr c]) [a, b] := by
        rw [packGroupLoop_step3 cfg (1 + 1) (withGroup st h []) a b c cL cP
            hcL hcP hcLne hcPne hcT2 hcip2, hscan]
        dsimp only
        rw [addLink_empty_withGroup cfg st h [] (stripCorr c)
            (by rw [stripCorr_hash]; exact hhc) (List.not_mem_nil _)]
        rfl
      have hneq1 : ({ stripCorr b with trgt_label := PyOpt.val a.src_label } : Link) ∉
          [stripCorr c] := by
        refine notin_singleton_of_trgt_ne _ _ ?_
        intro hq
        rw [show ({ stripCorr b with trgt_label := PyOpt.val a.src_label } : Link).trgt_label
              = PyOpt.val a.src_label from rfl,
          show (stripCorr c).trgt_label = c.trgt_label from rfl, hcT] at hq
        exact PyOpt.noConfusion hq
      have e2 : packGroupLoop cfg (1 + 1) (withGroup st h [stripCorr c]) [a, b]
          = some (withGroup st h [stripCorr c, packedMerge cfg (stripCorr b) a db da]) := by
        rw [packGroupLoop_pair cfg 1 (withGroup st h [stripCorr c]) a b bL bP
            hbL hbP hbLne hbPne hbip hbip2 (hpab.2.symm.trans hbL) (hpab.1.symm.trans hbP),
          packPair_same_label cfg (withGroup st h [stripCorr c]) (stripCorr b) a db da
            hdb hda hab.symm,
          addLinkMark_withGroup cfg st h [stripCorr c]
            { stripCorr b with trgt_label := PyOpt.val a.src_label }
            (pyDictMerge db da) hhb hneq1]
        rfl
      refine ⟨withGroup st h [stripCorr c, packedMerge cfg (stripCorr b) a db da],
        packedMerge cfg (stripCorr b) a db da, stripCorr c, ?_, ?_, ?_, ?_, ?_⟩
      · rw [packLinks_single_group cfg st h [a, b, c] hst (by simp), hl3,
          show ({ st with links_dict := [(h, ([] : List Link))] } : IsisState)
            = withGroup st h [] from rfl, e1, e2]
        dsimp only
        rw [if_pos (by simp [withGroup])]
      · exact Or.inr (by simp [withGroup, pyGet])
      · exact ⟨a, Or.inl rfl, packedMerge_trgt cfg (stripCorr b) a db da⟩
      · exact hcT
      · exact ⟨c, Or.inr (Or.inr rfl), rfl⟩
    · -- pair (c, a): candidate c immediately pairs with a, b is left over
      have hscan : scanIntf [a, b] (PyOpt.val cL) (PyOpt.val cP) = some (some a) :=
        scanIntf_found [b] a (PyOpt.val cL) (PyOpt.val cP)
          (hpca.1.trans hcL) (hpca.2.trans hcP)
          (fun q => PyOpt.noConfusion q) (fun q => PyOpt.noConfusion q)
      have e1 : packGroupLoop cfg (1 + 1 + 1) (withGroup st h []) [a, b, c]
          = packGroupLoop cfg (1 + 1)
              (withGroup st h [packedMerge cfg (stripCorr c) a dc da]) [b] := by
        rw [packGroupLoop_step3 cfg (1 + 1) (withGroup st h []) a b c cL cP
            hcL hcP hcLne hcPne hcT2 hcip2, hscan]
        dsimp only
        rw [packPair_same_label cfg (withGroup st h []) (stripCorr c) a dc da
            hdc hda (hab.trans hbc).symm]
        dsimp only
        rw [addLinkMark_withGroup cfg st h []
            { stripCorr c with trgt_label := PyOpt.val a.src_label }
            (pyDictMerge dc da) hhc (List.not_mem_nil _)]
        dsimp only
        rw [List.erase_cons_head]
        rfl
      have hbnotin : stripCorr b ∉ [packedMerge cfg (stripCorr c) a dc da] :=
        notin_singleton_of_trgt_ne _ _
          (packedMerge_trgt_ne cfg (stripCorr c) a dc da (stripCorr b) hbT)
      have e2 : packGroupLoop cfg (1 + 1)
            (withGroup st h [packedMerge cfg (stripCorr c) a dc da]) [b]
          = some (withGroup st h [packedMerge cfg (stripCorr c) a dc da, stripCorr b]) := by
        rw [packGroupLoop_one_nopair cfg 1
            (withGroup st h [packedMerge cfg (stripCorr c) a dc da]) b bL bP
            hbL hbP hbLne hbPne hbip hbip2,
          addLink_empty_withGroup cfg st h [packedMerge cfg (stripCorr c) a dc da]
            (stripCorr b) (by rw [stripCorr_hash]; exact hhb) hbnotin]
        rfl
      refine ⟨withGroup st h [packedMerge cfg (stripCorr c) a dc da, stripCorr b],
        packedMerge cfg (stripCorr c) a dc da, stripCorr b, ?_, ?_, ?_, ?_, ?_⟩
      · rw [packLinks_single_group cfg st h [a, b, c] hst (by simp), hl3,
          show ({ st with links_dict := [(h, ([] : List Link))] } : IsisState)
            = withGroup st h [] from rfl, e1, e2]
        dsimp only
        rw [if_pos (by simp [withGroup])]
      · exact Or.inl (by simp [withGroup, pyGet])
      · exact ⟨a, Or.inl rfl, packedMerge_trgt cfg (stripCorr c) a dc da⟩
      · exact hbT
      · exact ⟨b, Or.inr (Or.inl rfl), rfl⟩
    · -- pair (c, b): candidate c skips a, pairs with b, a is left over
      have hne_ab : a ≠ b := fun he => hnca (by rw [he]; exact hpcb)
      have hscan : scanIntf [a, b] (PyOpt.val cL) (PyOpt.val cP) = some (some b) := by
        rw [scanIntf_skip [b] a (PyOpt.val cL) (PyOpt.val cP)
            (by rw [haP]; exact fun q => PyOpt.noConfusion q)
            (by rw [haL]; exact fun q => PyOpt.noConfusion q)
            (fun hq => hnca ⟨hq.1.trans hcL.symm, hq.2.trans hcP.symm⟩)]
        exact scanIntf_found [] b (PyOpt.val cL) (PyOpt.val cP)
          (hpcb.1.trans hcL) (hpcb.2.trans hcP)
          (fun q => PyOpt.noConfusion q) (fun q => PyOpt.noConfusion q)
      have e1 : packGroupLoop cfg (1 + 1 + 1) (withGroup st h []) [a, b, c]
          = packGroupLoop cfg (1 + 1)
              (withGroup st h [packedMerge cfg (stripCorr c) b dc db]) [a] := by
        rw [packGroupLoop_step3 cfg (1 + 1) (withGroup st h []) a b c cL cP
            hcL hcP hcLne hcPne hcT2 hcip2, hscan]
        dsimp only
        rw [packPair_same_label cfg (withGroup st h []) (stripCorr c) b dc db
            hdc hdb hbc.symm]
        dsimp only
        rw [addLinkMark_withGroup cfg st h []
            { stripCorr c with trgt_label := PyOpt.val b.src_label }
            (pyDictMerge dc db) hhc (List.not_mem_nil _)]
        dsimp only
        rw [show ([a, b] : List Link).erase b = [a] from by
          simp [List.erase_cons, hne_ab]]
        rfl
      have hanotin : stripCorr a ∉ [packedMerge cfg (stripCorr c) b dc db] :=
        notin_singleton_of_trgt_ne _ _
          (packedMerge_trgt_ne cfg (stripCorr c) b dc db (stripCorr a) haT)
      have e2 : packGroupLoop cfg (1 + 1)
            (withGroup st h [packedMerge cfg (stripCorr c) b dc db]) [a]
          = some (withGroup st h [packedMerge cfg (stripCorr c) b dc db, stripCorr a]) := by
        rw [packGroupLoop_one_nopair cfg 1
            (withGroup st h [packedMerge cfg (stripCorr c) b dc db]) a aL aP
            haL haP haLne haPne haip haip2,
          addLink_empty_withGroup cfg st h [packedMerge cfg (stripCorr c) b dc db]
            (stripCorr a) (by rw [stripCorr_hash]; exact hha) hanotin]
        rfl
      refine ⟨withGroup st h [packedMerge cfg (stripCorr c) b dc db, stripCorr a],
        packedMerge cfg (stripCorr c) b dc db, stripCorr a, ?_, ?_, ?_, ?_, ?_⟩
      · rw [packLinks_single_group cfg st h [a, b, c] hst (by simp), hl3,
          show ({ st with links_dict := [(h, ([] : List Link))] } : IsisState)
            = withGroup st h [] from rfl, e1, e2]
        dsimp only
        rw [if_pos (by simp [withGroup])]
      · exact Or.inl (by simp [withGroup, pyGet])
      · exact ⟨b, Or.inr (Or.inl rfl), packedMerge_trgt cfg (stripCorr c) b dc db⟩
      · exact haT
      · exact ⟨a, Or.inl rfl, rfl⟩

/-- C2 witness, part (a): a one-link group. -/
def w2g1 : Link :=
  { source := "A", target := "B", label := "L", src_label := "s",
    local_intf_id := PyOpt.val "7", peer_intf_id := PyOpt.val "8" }

/-- C2 witness state with a single singleton group. -/
def w2stA : IsisState := { links_dict := [(makeHashTuple w2g1, [w2g1])] }

/-- C2 witness, part (b): link paired with `w2b` on interface IDs 1/2. -/
def w2a : Link :=
  { source := "A", target := "B", label := "L", src_label := "sa",
    local_intf_id := PyOpt.val "1", peer_intf_id := PyOpt.val "2",
    local_ip := PyOpt.val "x", peer_ip := PyOpt.val "y", description := some [] }

/-- C2 witness: the partner of `w2a`. -/
def w2b : Link :=
  { source := "A", target := "B", label := "L", src_label := "sb",
    local_intf_id := PyOpt.val "2", peer_intf_id := PyOpt.val "1",
    local_ip := PyOpt.val "x2", peer_ip := PyOpt.val "y2", description := some [] }

/-- C2 witness: the third link, pairing with neither. -/
def w2c : Link :=
  { source := "A", target := "B", label := "L", src_label := "sc",
    local_intf_id := PyOpt.val "9", peer_intf_id := PyOpt.val "8",
    local_ip := PyOpt.val "x3", peer_ip := PyOpt.val "y3", description := some [] }

/-- C2 witness state with the three-link group. -/
def w2stB : IsisState := { links_dict := [(makeHashTuple w2a, [w2a, w2b, w2c])] }

/-- Witness for C2: the singleton group survives packing unchanged, and the
three-link group with exactly one interface-ID pair packs to two entries. -/
theorem c2_pack_sizes_witness :
    pyGet w2stA.links_dict (makeHashTuple w2g1) = some [w2g1] ∧
    (∃ (st' : IsisState) (m u : Link),
      packLinks {} w2stB = some st' ∧
      (pyGet st'.links_dict (makeHashTuple w2a) = some [m, u] ∨
       pyGet st'.links_dict (makeHashTuple w2a) = some [u, m]) ∧
      (∃ q, (q = w2a ∨ q = w2b ∨ q = w2c) ∧ m.trgt_label = PyOpt.val q.src_label) ∧
      u.trgt_label = PyOpt.absent ∧
      (∃ r, (r = w2a ∨ r = w2b ∨ r = w2c) ∧ u = stripCorr r)) :=
  ⟨c2_pack_sizes.1 {} w2stA w2stA (makeHashTuple w2g1) w2g1
      (by decide) (by decide) (by decide) (by decide),
   c2_pack_sizes.2 {} w2stB w2a w2b w2c (makeHashTuple w2a) "1" "2" "2" "1" "9" "8"
      rfl (by decide) (by decide) (by decide)
      ⟨rfl, rfl, by decide, by decide, by decide, by decide, rfl, [], rfl⟩
      ⟨rfl, rfl, by decide, by decide, by decide, by decide, rfl, [], rfl⟩
      ⟨rfl, rfl, by decide, by decide, by decide, by decide, rfl, [], rfl⟩
      rfl rfl
      (Or.inl ⟨⟨rfl, rfl⟩, by decide, by decide⟩)⟩

end N2GIsis
